import Mathlib

/-!
Verification of the filter-query resolution and repository-scope
synchronization engine of the gh-dash dashboard.

The Go source is shallowly embedded as follows.

Strings are Lean strings; every Go string primitive used by the source
(strings.Fields, strings.Join, strings.HasPrefix, strings.TrimPrefix,
strings.TrimSuffix, strings.TrimSpace, strings.Index, strings.Split) is
re-implemented here over the underlying character list, keeping the exact
Go semantics.

The git remote lookups (GetOriginRepo, GetUpstreamRepo) perform process
calls in the source; the embedding abstracts their outcome as an
Identities value carrying the resolved owner and name pairs of the origin
and upstream remotes, or none when resolution fails.

The template expansion step (enrichSearchWithTemplateVars) reads the
system clock and runs a template engine; it returns the input unchanged
on any failure. The embedding treats the stored search value as the
already expanded text, which is how every claim quantifies over it.

Go returns multiple values (owner, name, err); the embedding mirrors
this with tuples whose last component is an optional error message.
-/

/-! ## Character-list primitives mirroring the Go strings package -/

/-- Field splitting on runs of whitespace, mirroring strings.FieldsSeq.
The accumulator holds the characters of the current token in reverse. -/
def fieldsAux (acc : List Char) : List Char → List (List Char)
  | [] => if acc = [] then [] else [acc.reverse]
  | c :: cs =>
    if c.isWhitespace then
      if acc = [] then fieldsAux [] cs else acc.reverse :: fieldsAux [] cs
    else fieldsAux (c :: acc) cs

/-- strings.FieldsSeq: whitespace-separated tokens of a string. -/
def strFields (s : String) : List String :=
  (fieldsAux [] s.data).map String.mk

/-- strings.Join with a single-space separator. -/
def joinWords : List String → String
  | [] => ""
  | [w] => w
  | w :: ws => w ++ " " ++ joinWords ws

/-- strings.HasPrefix. -/
def strStartsWith (s pre : String) : Bool :=
  pre.data.isPrefixOf s.data

/-- strings.TrimPrefix: drop the prefix when present, else identity. -/
def strTrimLeading (s pre : String) : String :=
  if pre.data.isPrefixOf s.data then String.mk (s.data.drop pre.data.length) else s

/-- strings.TrimSuffix (and strings.CutSuffix up to the found flag):
drop the suffix when present, else identity. -/
def strTrimTrailing (s suf : String) : String :=
  if suf.data.isSuffixOf s.data then
    String.mk (s.data.take (s.data.length - suf.data.length))
  else s

/-- strings.TrimSpace. -/
def goTrimSpace (s : String) : String :=
  String.mk (((s.data.dropWhile Char.isWhitespace).reverse.dropWhile
    Char.isWhitespace).reverse)

/-- Everything after the first occurrence of a character, mirroring the
strings.Index plus slice idiom; none when the character is absent. -/
def afterChar (c : Char) : List Char → Option (List Char)
  | [] => none
  | x :: xs => if x = c then some xs else afterChar c xs

/-- strings.Split on a single-character separator. -/
def splitOnChar (c : Char) : List Char → List (List Char)
  | [] => [[]]
  | x :: xs =>
    if x = c then [] :: splitOnChar c xs
    else
      match splitOnChar c xs with
      | [] => [[x]]
      | h :: t => (x :: h) :: t

/-- A string is whitespace-free when none of its characters is whitespace. -/
def wsFree (s : String) : Prop := ∀ c ∈ s.data, c.isWhitespace = false

instance (s : String) : Decidable (wsFree s) := by
  unfold wsFree; infer_instance

/-! ## Basic lemmas on the primitives -/

theorem strData_append (a b : String) : (a ++ b).data = a.data ++ b.data := rfl

theorem strMk_data (s : String) : String.mk s.data = s := rfl

theorem strMk_inj {a b : List Char} (h : String.mk a = String.mk b) : a = b := by
  cases h; rfl

theorem str_ne_empty_iff (w : String) : w ≠ "" ↔ w.data ≠ [] := by
  constructor
  · intro h h2
    apply h
    cases w
    simp at h2
    simp [h2]
  · intro h h2
    subst h2
    exact h rfl

theorem isPrefixOf_append_self (p l : List Char) : p.isPrefixOf (p ++ l) = true := by
  simp [List.isPrefixOf_iff_prefix]

theorem isSuffixOf_append_self (sfx l : List Char) :
    sfx.isSuffixOf (l ++ sfx) = true := by
  simp [List.isSuffixOf_iff_suffix]

theorem isPrefixOf_cons_false {a b : Char} {l₁ l₂ : List Char} (h : ¬ a = b) :
    (a :: l₁).isPrefixOf (b :: l₂) = false := by
  simp [List.isPrefixOf, h]

theorem strTrimLeading_append (p r : String) : strTrimLeading (p ++ r) p = r := by
  unfold strTrimLeading
  rw [strData_append, if_pos (by simp)]
  rw [List.drop_left]

theorem strTrimLeading_of_not (s pre : String)
    (h : pre.data.isPrefixOf s.data = false) : strTrimLeading s pre = s := by
  simp [strTrimLeading, h]

theorem strTrimTrailing_append (s sfx : String) : strTrimTrailing (s ++ sfx) sfx = s := by
  unfold strTrimTrailing
  rw [strData_append, if_pos (by simp)]
  have hlen : (s.data ++ sfx.data).length - sfx.data.length = s.data.length := by
    simp [List.length_append]
  rw [hlen, List.take_left]

theorem strTrimTrailing_of_not (s suf : String)
    (h : suf.data.isSuffixOf s.data = false) : strTrimTrailing s suf = s := by
  simp [strTrimTrailing, h]

theorem dropWhile_eq_self {p : Char → Bool} {l : List Char}
    (h : ∀ c, l.head? = some c → p c = false) : l.dropWhile p = l := by
  cases l with
  | nil => rfl
  | cons a as => simp [List.dropWhile_cons, h a rfl]

theorem getLast?_append_right {l₁ l₂ : List Char} (h : l₂ ≠ []) :
    (l₁ ++ l₂).getLast? = l₂.getLast? := by
  rw [← List.head?_reverse, List.reverse_append, ← List.head?_reverse]
  cases hrev : l₂.reverse with
  | nil => exact absurd (by simpa using hrev) h
  | cons a t => simp [hrev]

theorem goTrimSpace_eq_self (s : String)
    (h1 : ∀ c, s.data.head? = some c → c.isWhitespace = false)
    (h2 : ∀ c, s.data.getLast? = some c → c.isWhitespace = false) :
    goTrimSpace s = s := by
  unfold goTrimSpace
  rw [dropWhile_eq_self h1]
  rw [dropWhile_eq_self (fun c hc => h2 c (by rwa [List.head?_reverse] at hc))]
  rw [List.reverse_reverse]

theorem single_isSuffixOf_false {c : Char} {l : List Char}
    (h : ∀ x, l.getLast? = some x → x ≠ c) : [c].isSuffixOf l = false := by
  unfold List.isSuffixOf
  cases hrev : l.reverse with
  | nil => rfl
  | cons a t =>
    have ha : l.getLast? = some a := by rw [← List.head?_reverse, hrev]; rfl
    have : ¬ (c = a) := fun e => (h a ha) e.symm
    simp [List.isPrefixOf, this]

theorem afterChar_append {c : Char} {l₁ l₂ : List Char} (h : c ∉ l₁) :
    afterChar c (l₁ ++ c :: l₂) = some l₂ := by
  induction l₁ with
  | nil => simp [afterChar]
  | cons a t ih =>
    have ha : ¬ a = c := fun e => h (by simp [e])
    have ht : c ∉ t := fun m => h (List.mem_cons_of_mem _ m)
    simp [afterChar, ha, ih ht]

theorem afterChar_none {c : Char} {l : List Char} (h : c ∉ l) :
    afterChar c l = none := by
  induction l with
  | nil => rfl
  | cons a t ih =>
    have ha : ¬ a = c := fun e => h (by simp [e])
    have ht : c ∉ t := fun m => h (List.mem_cons_of_mem _ m)
    simp [afterChar, ha, ih ht]

theorem splitOnChar_no {c : Char} {l : List Char} (h : c ∉ l) :
    splitOnChar c l = [l] := by
  induction l with
  | nil => rfl
  | cons a t ih =>
    have ha : ¬ a = c := fun e => h (by simp [e])
    have ht : c ∉ t := fun m => h (List.mem_cons_of_mem _ m)
    simp [splitOnChar, ha, ih ht]

theorem splitOnChar_append {c : Char} {l₁ l₂ : List Char} (h : c ∉ l₁) :
    splitOnChar c (l₁ ++ c :: l₂) = l₁ :: splitOnChar c l₂ := by
  induction l₁ with
  | nil => simp [splitOnChar]
  | cons a t ih =>
    have ha : ¬ a = c := fun e => h (by simp [e])
    have ht : c ∉ t := fun m => h (List.mem_cons_of_mem _ m)
    simp [splitOnChar, ha, ih ht]

/-! ## The git module: remote URL parsing and the short display name -/

/-- The shared final step of both parser branches: split the path on
slashes and demand exactly two non-empty segments. -/
def splitTwo (path msg : String) : String × String × Option String :=
  match (splitOnChar '/' path.data).map String.mk with
  | [a, b] => if a = "" ∨ b = "" then ("", "", some msg) else (a, b, none)
  | _ => ("", "", some msg)

/-- The branch body of ParseGitHubRepoFromUrl, applied after the two
initial trims (strings.TrimSpace and strings.TrimSuffix of a slash). -/
def parseCore (u : String) : String × String × Option String :=
  if strStartsWith u "git@" then
    match afterChar ':' u.data with
    | none => ("", "", some "invalid SSH URL format: missing colon separator")
    | some p0 =>
      let p1 := strTrimTrailing (String.mk p0) ".git"
      let p2 := strTrimLeading p1 "/"
      splitTwo p2 "invalid SSH URL format: expected owner/repo"
  else if strStartsWith u "https://" || strStartsWith u "http://" then
    let rest := if strStartsWith u "https://" then strTrimLeading u "https://"
      else strTrimLeading u "http://"
    match afterChar '/' rest.data with
    | none => ("", "", some "invalid HTTPS URL format: missing path")
    | some p0 =>
      let p1 := strTrimTrailing (String.mk p0) ".git"
      let p2 := strTrimTrailing p1 "/"
      splitTwo p2 "invalid HTTPS URL format: expected owner/repo"
  else ("", "", some "unsupported URL format: expected git@ or https:// prefix")

/-- ParseGitHubRepoFromUrl from internal/git/git.go. Result is the triple
(owner, name, error message), mirroring the Go multi-value return where
the error carries the shown message and owner and name are empty on error. -/
def ParseGitHubRepoFromUrl (remoteUrl : String) : String × String × Option String :=
  parseCore (strTrimTrailing (goTrimSpace remoteUrl) "/")

/-! ## Lemmas about the parser -/

theorem strData_mk (l : List Char) : (String.mk l).data = l := rfl

theorem gitat_data : ("git@" : String).data = ['g', 'i', 't', '@'] := rfl

theorem colon_data : (":" : String).data = [':'] := rfl

theorem slash_data : ("/" : String).data = ['/'] := rfl

theorem mem_of_getLastEq {l : List Char} {a : Char} (h : l.getLast? = some a) :
    a ∈ l := by
  rcases List.mem_getLast?_eq_getLast (show a ∈ l.getLast? by simp [Option.mem_def, h])
    with ⟨hne, heq⟩
  rw [heq]
  exact List.getLast_mem hne

theorem getLast?_of_append_cons {l₁ l₂ : List Char} {c : Char} (h : l₂ ≠ []) :
    (l₁ ++ c :: l₂).getLast? = l₂.getLast? := by
  rw [getLast?_append_right (by simp : (c :: l₂) ≠ [])]
  cases l₂ with
  | nil => exact absurd rfl h
  | cons a t => rw [List.getLast?_cons_cons]

theorem strTrimLeading_of_data {s pre : String} {l : List Char}
    (h : s.data = pre.data ++ l) : strTrimLeading s pre = String.mk l := by
  unfold strTrimLeading
  rw [h, if_pos (by simp), List.drop_left]

theorem strTrimTrailing_append_mk (l : List Char) (sfx : String) :
    strTrimTrailing (String.mk (l ++ sfx.data)) sfx = String.mk l := by
  rw [show String.mk (l ++ sfx.data) = String.mk l ++ sfx from rfl]
  exact strTrimTrailing_append _ _

/-- The slash-free path O/R survives the trailing-slash trim. -/
theorem path_slash_trim {O R : String} (hR : ('/' : Char) ∉ R.data) (hRne : R ≠ "") :
    ("/" : String).data.isSuffixOf (O.data ++ '/' :: R.data) = false := by
  rw [slash_data]
  apply single_isSuffixOf_false
  intro x hx e
  rw [getLast?_of_append_cons ((str_ne_empty_iff R).mp hRne)] at hx
  exact hR (e ▸ mem_of_getLastEq hx)

/-- The slash-free nonempty owner O keeps the path from starting with a slash. -/
theorem path_lead_slash {O R : String} (hO : ('/' : Char) ∉ O.data) (hOne : O ≠ "") :
    ("/" : String).data.isPrefixOf (O.data ++ '/' :: R.data) = false := by
  rw [slash_data]
  obtain ⟨o0, t, h0⟩ := List.exists_cons_of_ne_nil ((str_ne_empty_iff O).mp hOne)
  rw [h0]
  exact isPrefixOf_cons_false (fun e => hO (by rw [h0]; exact e ▸ List.mem_cons_self o0 t))

/-- Splitting the canonical two-segment path. -/
theorem path_split {O R : String} (hO : ('/' : Char) ∉ O.data)
    (hR : ('/' : Char) ∉ R.data) :
    splitOnChar '/' (O.data ++ '/' :: R.data) = [O.data, R.data] := by
  rw [splitOnChar_append hO, splitOnChar_no hR]

/-- Shared tail of the parseCore SSH success proofs, starting from the path. -/
theorem parseCore_ssh_tail {O R : String}
    (hO : ('/' : Char) ∉ O.data) (hOne : O ≠ "")
    (hR : ('/' : Char) ∉ R.data) (hRne : R ≠ "")
    (u : String) (p0 : List Char)
    (hpre : strStartsWith u "git@" = true)
    (hafter : afterChar ':' u.data = some p0)
    (hp1 : strTrimTrailing (String.mk p0) ".git" = String.mk (O.data ++ '/' :: R.data)) :
    parseCore u = (O, R, none) := by
  have hp2 := strTrimLeading_of_not (String.mk (O.data ++ '/' :: R.data)) "/"
    (path_lead_slash hO hOne)
  simp only [parseCore, splitTwo, hpre, if_true, hafter, hp1, hp2, strData_mk,
    path_split hO hR, List.map_cons, List.map_nil, strMk_data]
  simp [hOne, hRne]

/-- Shared tail of the parseCore HTTP success proofs, starting after the
scheme checks, with rest the host-and-path remainder. -/
theorem parseCore_http_tail {O R : String}
    (hO : ('/' : Char) ∉ O.data) (hOne : O ≠ "")
    (hR : ('/' : Char) ∉ R.data) (hRne : R ≠ "")
    (u : String) (H : String) (p0 : List Char)
    (hgat : strStartsWith u "git@" = false)
    (hs : strStartsWith u "https://" = true)
    (hrest : strTrimLeading u "https://" = String.mk (H.data ++ '/' :: p0))
    (hH : ('/' : Char) ∉ H.data)
    (hp1 : strTrimTrailing (String.mk p0) ".git" = String.mk (O.data ++ '/' :: R.data)) :
    parseCore u = (O, R, none) := by
  have hafter : afterChar '/' (H.data ++ '/' :: p0) = some p0 := afterChar_append hH
  have hp2 := strTrimTrailing_of_not (String.mk (O.data ++ '/' :: R.data)) "/"
    (path_slash_trim hR hRne)
  simp only [parseCore, splitTwo, hgat, hs, if_true, if_false, Bool.false_eq_true,
    Bool.true_or, hrest, strData_mk, hafter, hp1, hp2, path_split hO hR,
    List.map_cons, List.map_nil, strMk_data]
  simp [hOne, hRne]

/-- Variant of the HTTP tail for the plain http scheme. -/
theorem parseCore_httpPlain_tail {O R : String}
    (hO : ('/' : Char) ∉ O.data) (hOne : O ≠ "")
    (hR : ('/' : Char) ∉ R.data) (hRne : R ≠ "")
    (u : String) (H : String) (p0 : List Char)
    (hgat : strStartsWith u "git@" = false)
    (hs : strStartsWith u "https://" = false)
    (hh : strStartsWith u "http://" = true)
    (hrest : strTrimLeading u "http://" = String.mk (H.data ++ '/' :: p0))
    (hH : ('/' : Char) ∉ H.data)
    (hp1 : strTrimTrailing (String.mk p0) ".git" = String.mk (O.data ++ '/' :: R.data)) :
    parseCore u = (O, R, none) := by
  have hafter : afterChar '/' (H.data ++ '/' :: p0) = some p0 := afterChar_append hH
  have hp2 := strTrimTrailing_of_not (String.mk (O.data ++ '/' :: R.data)) "/"
    (path_slash_trim hR hRne)
  simp only [parseCore, splitTwo, hgat, hs, hh, if_true, if_false, Bool.false_eq_true,
    Bool.false_or, Bool.or_true, hrest, strData_mk, hafter, hp1, hp2,
    path_split hO hR, List.map_cons, List.map_nil, strMk_data]
  simp [hOne, hRne]

/-- The two initial trims are the identity on a string with a
non-whitespace head and a last character that is neither whitespace nor
a slash. -/
theorem trims_stable {s : String}
    (h1 : ∀ c, s.data.head? = some c → c.isWhitespace = false)
    (h2 : ∀ c, s.data.getLast? = some c → c.isWhitespace = false ∧ c ≠ '/') :
    strTrimTrailing (goTrimSpace s) "/" = s := by
  rw [goTrimSpace_eq_self s h1 (fun c hc => (h2 c hc).1)]
  apply strTrimTrailing_of_not
  rw [slash_data]
  exact single_isSuffixOf_false (fun x hx => (h2 x hx).2)

/-- The two initial trims drop exactly one trailing slash. -/
theorem trims_slash {s : String}
    (h1 : ∀ c, (s ++ "/").data.head? = some c → c.isWhitespace = false) :
    strTrimTrailing (goTrimSpace (s ++ "/")) "/" = s := by
  have h2 : ∀ c, (s ++ "/").data.getLast? = some c → c.isWhitespace = false := by
    intro c hc
    rw [strData_append, getLast?_append_right (by decide)] at hc
    rw [show (("/" : String).data.getLast? = some '/') from rfl] at hc
    cases hc
    decide
  rw [goTrimSpace_eq_self _ h1 h2]
  exact strTrimTrailing_append s "/"

/-- GetRepoShortName from internal/git/git.go: CutPrefix of the public
host HTTPS form, then CutSuffix of .git. -/
def GetRepoShortName (url : String) : String :=
  strTrimTrailing (strTrimLeading url "https://github.com/") ".git"

theorem https_data : ("https://" : String).data
    = ['h', 't', 't', 'p', 's', ':', '/', '/'] := rfl

theorem http_data : ("http://" : String).data
    = ['h', 't', 't', 'p', ':', '/', '/'] := rfl

theorem core_ssh_plain {H O R : String} (hH : (':' : Char) ∉ H.data)
    (hO : ('/' : Char) ∉ O.data) (hOne : O ≠ "")
    (hR : ('/' : Char) ∉ R.data) (hRne : R ≠ "")
    (hPg : (".git" : String).data.isSuffixOf (O.data ++ '/' :: R.data) = false) :
    parseCore ("git@" ++ H ++ ":" ++ O ++ "/" ++ R) = (O, R, none) := by
  have hd : ("git@" ++ H ++ ":" ++ O ++ "/" ++ R).data
      = 'g' :: 'i' :: 't' :: '@' :: (H.data ++ ':' :: (O.data ++ '/' :: R.data)) := by
    simp [strData_append, gitat_data, colon_data, slash_data, List.append_assoc]
  have hpre : strStartsWith ("git@" ++ H ++ ":" ++ O ++ "/" ++ R) "git@" = true := by
    unfold strStartsWith
    rw [hd, gitat_data]
    simp [List.isPrefixOf]
  have hafter : afterChar ':' ("git@" ++ H ++ ":" ++ O ++ "/" ++ R).data
      = some (O.data ++ '/' :: R.data) := by
    rw [hd]
    simp [afterChar, afterChar_append hH]
  exact parseCore_ssh_tail hO hOne hR hRne _ _ hpre hafter
    (strTrimTrailing_of_not _ _ hPg)

theorem core_ssh_git {H O R : String} (hH : (':' : Char) ∉ H.data)
    (hO : ('/' : Char) ∉ O.data) (hOne : O ≠ "")
    (hR : ('/' : Char) ∉ R.data) (hRne : R ≠ "") :
    parseCore ("git@" ++ H ++ ":" ++ O ++ "/" ++ R ++ ".git") = (O, R, none) := by
  have hd : ("git@" ++ H ++ ":" ++ O ++ "/" ++ R ++ ".git").data
      = 'g' :: 'i' :: 't' :: '@' ::
        (H.data ++ ':' :: ((O.data ++ '/' :: R.data) ++ (".git" : String).data)) := by
    simp [strData_append, gitat_data, colon_data, slash_data, List.append_assoc]
  have hpre : strStartsWith ("git@" ++ H ++ ":" ++ O ++ "/" ++ R ++ ".git") "git@" = true := by
    unfold strStartsWith
    rw [hd, gitat_data]
    simp [List.isPrefixOf]
  have hafter : afterChar ':' ("git@" ++ H ++ ":" ++ O ++ "/" ++ R ++ ".git").data
      = some ((O.data ++ '/' :: R.data) ++ (".git" : String).data) := by
    rw [hd]
    simp [afterChar, afterChar_append hH]
  exact parseCore_ssh_tail hO hOne hR hRne _ _ hpre hafter
    (strTrimTrailing_append_mk _ _)

theorem core_https_plain {H O R : String} (hH : ('/' : Char) ∉ H.data)
    (hO : ('/' : Char) ∉ O.data) (hOne : O ≠ "")
    (hR : ('/' : Char) ∉ R.data) (hRne : R ≠ "")
    (hPg : (".git" : String).data.isSuffixOf (O.data ++ '/' :: R.data) = false) :
    parseCore ("https://" ++ H ++ "/" ++ O ++ "/" ++ R) = (O, R, none) := by
  have hd : ("https://" ++ H ++ "/" ++ O ++ "/" ++ R).data
      = 'h' :: 't' :: 't' :: 'p' :: 's' :: ':' :: '/' :: '/' ::
        (H.data ++ '/' :: (O.data ++ '/' :: R.data)) := by
    simp [strData_append, https_data, slash_data, List.append_assoc]
  have hgat : strStartsWith ("https://" ++ H ++ "/" ++ O ++ "/" ++ R) "git@" = false := by
    unfold strStartsWith
    rw [hd, gitat_data]
    simp [List.isPrefixOf]
  have hs : strStartsWith ("https://" ++ H ++ "/" ++ O ++ "/" ++ R) "https://" = true := by
    unfold strStartsWith
    rw [hd, https_data]
    simp [List.isPrefixOf]
  have hrest : strTrimLeading ("https://" ++ H ++ "/" ++ O ++ "/" ++ R) "https://"
      = String.mk (H.data ++ '/' :: (O.data ++ '/' :: R.data)) :=
    strTrimLeading_of_data (by rw [hd]; rfl)
  exact parseCore_http_tail hO hOne hR hRne _ H _ hgat hs hrest hH
    (strTrimTrailing_of_not _ _ hPg)

theorem core_https_git {H O R : String} (hH : ('/' : Char) ∉ H.data)
    (hO : ('/' : Char) ∉ O.data) (hOne : O ≠ "")
    (hR : ('/' : Char) ∉ R.data) (hRne : R ≠ "") :
    parseCore ("https://" ++ H ++ "/" ++ O ++ "/" ++ R ++ ".git") = (O, R, none) := by
  have hd : ("https://" ++ H ++ "/" ++ O ++ "/" ++ R ++ ".git").data
      = 'h' :: 't' :: 't' :: 'p' :: 's' :: ':' :: '/' :: '/' ::
        (H.data ++ '/' :: ((O.data ++ '/' :: R.data) ++ (".git" : String).data)) := by
    simp [strData_append, https_data, slash_data, List.append_assoc]
  have hgat : strStartsWith ("https://" ++ H ++ "/" ++ O ++ "/" ++ R ++ ".git") "git@"
      = false := by
    unfold strStartsWith
    rw [hd, gitat_data]
    simp [List.isPrefixOf]
  have hs : strStartsWith ("https://" ++ H ++ "/" ++ O ++ "/" ++ R ++ ".git") "https://"
      = true := by
    unfold strStartsWith
    rw [hd, https_data]
    simp [List.isPrefixOf]
  have hrest : strTrimLeading ("https://" ++ H ++ "/" ++ O ++ "/" ++ R ++ ".git") "https://"
      = String.mk (H.data ++ '/' :: ((O.data ++ '/' :: R.data) ++ (".git" : String).data)) :=
    strTrimLeading_of_data (by rw [hd]; rfl)
  exact parseCore_http_tail hO hOne hR hRne _ H _ hgat hs hrest hH
    (strTrimTrailing_append_mk _ _)

theorem core_http_plain {H O R : String} (hH : ('/' : Char) ∉ H.data)
    (hO : ('/' : Char) ∉ O.data) (hOne : O ≠ "")
    (hR : ('/' : Char) ∉ R.data) (hRne : R ≠ "")
    (hPg : (".git" : String).data.isSuffixOf (O.data ++ '/' :: R.data) = false) :
    parseCore ("http://" ++ H ++ "/" ++ O ++ "/" ++ R) = (O, R, none) := by
  have hd : ("http://" ++ H ++ "/" ++ O ++ "/" ++ R).data
      = 'h' :: 't' :: 't' :: 'p' :: ':' :: '/' :: '/' ::
        (H.data ++ '/' :: (O.data ++ '/' :: R.data)) := by
    simp [strData_append, http_data, slash_data, List.append_assoc]
  have hgat : strStartsWith ("http://" ++ H ++ "/" ++ O ++ "/" ++ R) "git@" = false := by
    unfold strStartsWith
    rw [hd, gitat_data]
    simp [List.isPrefixOf]
  have hs : strStartsWith ("http://" ++ H ++ "/" ++ O ++ "/" ++ R) "https://" = false := by
    unfold strStartsWith
    rw [hd, https_data]
    simp [List.isPrefixOf]
  have hh : strStartsWith ("http://" ++ H ++ "/" ++ O ++ "/" ++ R) "http://" = true := by
    unfold strStartsWith
    rw [hd, http_data]
    simp [List.isPrefixOf]
  have hrest : strTrimLeading ("http://" ++ H ++ "/" ++ O ++ "/" ++ R) "http://"
      = String.mk (H.data ++ '/' :: (O.data ++ '/' :: R.data)) :=
    strTrimLeading_of_data (by rw [hd]; rfl)
  exact parseCore_httpPlain_tail hO hOne hR hRne _ H _ hgat hs hh hrest hH
    (strTrimTrailing_of_not _ _ hPg)

theorem core_http_git {H O R : String} (hH : ('/' : Char) ∉ H.data)
    (hO : ('/' : Char) ∉ O.data) (hOne : O ≠ "")
    (hR : ('/' : Char) ∉ R.data) (hRne : R ≠ "") :
    parseCore ("http://" ++ H ++ "/" ++ O ++ "/" ++ R ++ ".git") = (O, R, none) := by
  have hd : ("http://" ++ H ++ "/" ++ O ++ "/" ++ R ++ ".git").data
      = 'h' :: 't' :: 't' :: 'p' :: ':' :: '/' :: '/' ::
        (H.data ++ '/' :: ((O.data ++ '/' :: R.data) ++ (".git" : String).data)) := by
    simp [strData_append, http_data, slash_data, List.append_assoc]
  have hgat : strStartsWith ("http://" ++ H ++ "/" ++ O ++ "/" ++ R ++ ".git") "git@"
      = false := by
    unfold strStartsWith
    rw [hd, gitat_data]
    simp [List.isPrefixOf]
  have hs : strStartsWith ("http://" ++ H ++ "/" ++ O ++ "/" ++ R ++ ".git") "https://"
      = false := by
    unfold strStartsWith
    rw [hd, https_data]
    simp [List.isPrefixOf]
  have hh : strStartsWith ("http://" ++ H ++ "/" ++ O ++ "/" ++ R ++ ".git") "http://"
      = true := by
    unfold strStartsWith
    rw [hd, http_data]
    simp [List.isPrefixOf]
  have hrest : strTrimLeading ("http://" ++ H ++ "/" ++ O ++ "/" ++ R ++ ".git") "http://"
      = String.mk (H.data ++ '/' :: ((O.data ++ '/' :: R.data) ++ (".git" : String).data)) :=
    strTrimLeading_of_data (by rw [hd]; rfl)
  exact parseCore_httpPlain_tail hO hOne hR hRne _ H _ hgat hs hh hrest hH
    (strTrimTrailing_append_mk _ _)

theorem head_nonws (a : Char) {s : String} (hd : s.data.head? = some a)
    (ha : a.isWhitespace = false) :
    ∀ c, s.data.head? = some c → c.isWhitespace = false := by
  intro c hc
  rw [hd] at hc
  cases hc
  exact ha

theorem last_cond_of_R {Y R : String} (hR : ('/' : Char) ∉ R.data) (hRne : R ≠ "")
    (hRw : wsFree R) :
    ∀ c, (Y ++ R).data.getLast? = some c → c.isWhitespace = false ∧ c ≠ '/' := by
  intro c hc
  rw [strData_append, getLast?_append_right ((str_ne_empty_iff R).mp hRne)] at hc
  have hm := mem_of_getLastEq hc
  exact ⟨hRw c hm, fun e => hR (e ▸ hm)⟩

theorem last_cond_of_git (Y : String) :
    ∀ c, (Y ++ ".git").data.getLast? = some c → c.isWhitespace = false ∧ c ≠ '/' := by
  intro c hc
  rw [strData_append, getLast?_append_right (by decide)] at hc
  have he : (".git" : String).data.getLast? = some 't' := by decide
  rw [he] at hc
  cases hc
  exact ⟨by decide, by decide⟩

/-- Claim C6 (amended): ParseGitHubRepoFromUrl accepts the SSH form
git@H:O/R with optional trailing .git when the host H contains no colon,
and the HTTP and HTTPS forms scheme://H/O/R with optional trailing .git
and optional trailing slash when the host H contains no slash, returning
owner O and name R with no error, for all non-empty, slash-free segments
O and R such that R is whitespace-free and the O/R path does not itself
end in .git; no further validation is applied to the host. -/
theorem c6_parse_remote_url (H O R : String)
    (hO : ('/' : Char) ∉ O.data) (hOne : O ≠ "")
    (hR : ('/' : Char) ∉ R.data) (hRne : R ≠ "")
    (hRw : wsFree R)
    (hPg : (".git" : String).data.isSuffixOf (O.data ++ '/' :: R.data) = false) :
    ((':' : Char) ∉ H.data →
      ParseGitHubRepoFromUrl ("git@" ++ H ++ ":" ++ O ++ "/" ++ R) = (O, R, none)
      ∧ ParseGitHubRepoFromUrl ("git@" ++ H ++ ":" ++ O ++ "/" ++ R ++ ".git")
          = (O, R, none))
    ∧ (('/' : Char) ∉ H.data →
      ParseGitHubRepoFromUrl ("https://" ++ H ++ "/" ++ O ++ "/" ++ R) = (O, R, none)
      ∧ ParseGitHubRepoFromUrl ("https://" ++ H ++ "/" ++ O ++ "/" ++ R ++ ".git")
          = (O, R, none)
      ∧ ParseGitHubRepoFromUrl ("https://" ++ H ++ "/" ++ O ++ "/" ++ R ++ "/")
          = (O, R, none)
      ∧ ParseGitHubRepoFromUrl ("https://" ++ H ++ "/" ++ O ++ "/" ++ R ++ ".git" ++ "/")
          = (O, R, none)
      ∧ ParseGitHubRepoFromUrl ("http://" ++ H ++ "/" ++ O ++ "/" ++ R) = (O, R, none)
      ∧ ParseGitHubRepoFromUrl ("http://" ++ H ++ "/" ++ O ++ "/" ++ R ++ ".git")
          = (O, R, none)) := by
  constructor
  · intro hH
    constructor
    · have h1 : ∀ c, ("git@" ++ H ++ ":" ++ O ++ "/" ++ R).data.head? = some c →
          c.isWhitespace = false := head_nonws 'g' rfl (by decide)
      unfold ParseGitHubRepoFromUrl
      rw [trims_stable h1 (last_cond_of_R hR hRne hRw)]
      exact core_ssh_plain hH hO hOne hR hRne hPg
    · have h1 : ∀ c, ("git@" ++ H ++ ":" ++ O ++ "/" ++ R ++ ".git").data.head? = some c →
          c.isWhitespace = false := head_nonws 'g' rfl (by decide)
      unfold ParseGitHubRepoFromUrl
      rw [trims_stable h1 (last_cond_of_git _)]
      exact core_ssh_git hH hO hOne hR hRne
  · intro hH
    refine ⟨?_, ?_, ?_, ?_, ?_, ?_⟩
    · have h1 : ∀ c, ("https://" ++ H ++ "/" ++ O ++ "/" ++ R).data.head? = some c →
          c.isWhitespace = false := head_nonws 'h' rfl (by decide)
      unfold ParseGitHubRepoFromUrl
      rw [trims_stable h1 (last_cond_of_R hR hRne hRw)]
      exact core_https_plain hH hO hOne hR hRne hPg
    · have h1 : ∀ c, ("https://" ++ H ++ "/" ++ O ++ "/" ++ R ++ ".git").data.head?
          = some c → c.isWhitespace = false := head_nonws 'h' rfl (by decide)
      unfold ParseGitHubRepoFromUrl
      rw [trims_stable h1 (last_cond_of_git _)]
      exact core_https_git hH hO hOne hR hRne
    · have h1 : ∀ c, (("https://" ++ H ++ "/" ++ O ++ "/" ++ R) ++ "/").data.head?
          = some c → c.isWhitespace = false := head_nonws 'h' rfl (by decide)
      unfold ParseGitHubRepoFromUrl
      rw [trims_slash h1]
      exact core_https_plain hH hO hOne hR hRne hPg
    · have h1 : ∀ c, (("https://" ++ H ++ "/" ++ O ++ "/" ++ R ++ ".git") ++ "/").data.head?
          = some c → c.isWhitespace = false := head_nonws 'h' rfl (by decide)
      unfold ParseGitHubRepoFromUrl
      rw [trims_slash h1]
      exact core_https_git hH hO hOne hR hRne
    · have h1 : ∀ c, ("http://" ++ H ++ "/" ++ O ++ "/" ++ R).data.head? = some c →
          c.isWhitespace = false := head_nonws 'h' rfl (by decide)
      unfold ParseGitHubRepoFromUrl
      rw [trims_stable h1 (last_cond_of_R hR hRne hRw)]
      exact core_http_plain hH hO hOne hR hRne hPg
    · have h1 : ∀ c, ("http://" ++ H ++ "/" ++ O ++ "/" ++ R ++ ".git").data.head?
          = some c → c.isWhitespace = false := head_nonws 'h' rfl (by decide)
      unfold ParseGitHubRepoFromUrl
      rw [trims_stable h1 (last_cond_of_git _)]
      exact core_http_git hH hO hOne hR hRne

/-- Witness for C6 at a concrete host, owner and name. -/
theorem c6_parse_remote_url_witness :
    ParseGitHubRepoFromUrl ("git@" ++ "github.com" ++ ":" ++ "dlvhdr" ++ "/" ++ "gh-dash")
      = ("dlvhdr", "gh-dash", none)
    ∧ ParseGitHubRepoFromUrl ("https://" ++ "github.com" ++ "/" ++ "dlvhdr" ++ "/"
        ++ "gh-dash" ++ ".git") = ("dlvhdr", "gh-dash", none)
    ∧ ParseGitHubRepoFromUrl "git@github.com:dlvhdr/gh-dash" = ("dlvhdr", "gh-dash", none) :=
  ⟨((c6_parse_remote_url "github.com" "dlvhdr" "gh-dash" (by decide) (by decide)
      (by decide) (by decide) (by decide) (by decide)).1 (by decide)).1,
   (((c6_parse_remote_url "github.com" "dlvhdr" "gh-dash" (by decide) (by decide)
      (by decide) (by decide) (by decide) (by decide)).2 (by decide)).2).1,
   by decide⟩

/-- Counterexample for C6 as stated: with the host a:b containing a
colon, the SSH form is not parsed into the written owner and name,
because the code splits at the first colon of the whole URL. -/
theorem c6_counterexample :
    ParseGitHubRepoFromUrl ("git@" ++ "a:b" ++ ":" ++ "o" ++ "/" ++ "r")
      = ("b:o", "r", none)
    ∧ ParseGitHubRepoFromUrl ("git@" ++ "a:b" ++ ":" ++ "o" ++ "/" ++ "r")
      ≠ ("o", "r", none) := by decide

theorem gitat_false_of_https {u : String} (h : strStartsWith u "https://" = true) :
    strStartsWith u "git@" = false := by
  unfold strStartsWith at *
  obtain ⟨t, ht⟩ := List.isPrefixOf_iff_prefix.mp h
  rw [← ht, https_data, gitat_data]
  simp [List.isPrefixOf]

theorem splitTwo_error_empty (path msg : String) :
    (splitTwo path msg).2.2 = none
      ∨ ((splitTwo path msg).1 = "" ∧ (splitTwo path msg).2.1 = "") := by
  unfold splitTwo
  rcases hxs : (splitOnChar '/' path.data).map String.mk with _ | ⟨a, _ | ⟨b, _ | ⟨c, t⟩⟩⟩
  · simp
  · simp
  · dsimp only
    split
    · simp
    · simp
  · simp

/-- On every error branch the returned owner and name are empty. -/
theorem parseCore_error_empty (u : String) :
    (parseCore u).2.2 = none ∨ ((parseCore u).1 = "" ∧ (parseCore u).2.1 = "") := by
  unfold parseCore
  split
  · rcases hac : afterChar ':' u.data with _ | p0
    · simp
    · exact splitTwo_error_empty _ _
  · split
    · rcases hac : afterChar '/' ((if strStartsWith (u : String) "https://" = true
          then strTrimLeading u "https://" else strTrimLeading u "http://")).data
        with _ | p0
      · simp [hac]
      · simp only [hac]
        exact splitTwo_error_empty _ _
    · simp

/-- Claim C7 (amended): the error taxonomy of ParseGitHubRepoFromUrl,
stated on the input after the initial whitespace trim and trailing-slash
strip: no recognized scheme yields the unsupported-format error, a git@
input without a colon yields the missing-colon error, an https input with
no slash after the host yields the missing-path error, and paths that do
not split into exactly two non-empty segments yield the malformed
owner/repo error; every error leaves owner and name empty. -/
theorem c7_parse_errors :
    (∀ s : String,
      strStartsWith (strTrimTrailing (goTrimSpace s) "/") "git@" = false →
      strStartsWith (strTrimTrailing (goTrimSpace s) "/") "https://" = false →
      strStartsWith (strTrimTrailing (goTrimSpace s) "/") "http://" = false →
      ParseGitHubRepoFromUrl s
        = ("", "", some "unsupported URL format: expected git@ or https:// prefix"))
    ∧ (∀ s : String,
      strStartsWith (strTrimTrailing (goTrimSpace s) "/") "git@" = true →
      (':' : Char) ∉ (strTrimTrailing (goTrimSpace s) "/").data →
      ParseGitHubRepoFromUrl s
        = ("", "", some "invalid SSH URL format: missing colon separator"))
    ∧ (∀ s : String,
      strStartsWith (strTrimTrailing (goTrimSpace s) "/") "https://" = true →
      ('/' : Char) ∉
        (strTrimLeading (strTrimTrailing (goTrimSpace s) "/") "https://").data →
      ParseGitHubRepoFromUrl s
        = ("", "", some "invalid HTTPS URL format: missing path"))
    ∧ ParseGitHubRepoFromUrl ""
        = ("", "", some "unsupported URL format: expected git@ or https:// prefix")
    ∧ ParseGitHubRepoFromUrl "ftp://host/o/r"
        = ("", "", some "unsupported URL format: expected git@ or https:// prefix")
    ∧ ParseGitHubRepoFromUrl "https://host"
        = ("", "", some "invalid HTTPS URL format: missing path")
    ∧ ParseGitHubRepoFromUrl "https://host/only"
        = ("", "", some "invalid HTTPS URL format: expected owner/repo")
    ∧ ParseGitHubRepoFromUrl "https://host/a/b/c"
        = ("", "", some "invalid HTTPS URL format: expected owner/repo")
    ∧ ParseGitHubRepoFromUrl "git@host:/r"
        = ("", "", some "invalid SSH URL format: expected owner/repo")
    ∧ ParseGitHubRepoFromUrl "https://host/o/"
        = ("", "", some "invalid HTTPS URL format: expected owner/repo")
    ∧ ParseGitHubRepoFromUrl "git@host/o/r"
        = ("", "", some "invalid SSH URL format: missing colon separator")
    ∧ (∀ s : String, (ParseGitHubRepoFromUrl s).2.2 ≠ none →
        (ParseGitHubRepoFromUrl s).1 = "" ∧ (ParseGitHubRepoFromUrl s).2.1 = "") := by
  refine ⟨?_, ?_, ?_, by decide, by decide, by decide, by decide, by decide, by decide,
    by decide, by decide, ?_⟩
  · intro s h1 h2 h3
    simp [ParseGitHubRepoFromUrl, parseCore, h1, h2, h3]
  · intro s h1 h2
    simp [ParseGitHubRepoFromUrl, parseCore, h1, afterChar_none h2]
  · intro s h1 h2
    simp [ParseGitHubRepoFromUrl, parseCore, gitat_false_of_https h1, h1,
      afterChar_none h2]
  · intro s h
    rcases parseCore_error_empty (strTrimTrailing (goTrimSpace s) "/") with he | he
    · exact absurd he h
    · exact he

/-- Witness for C7 at concrete inputs. -/
theorem c7_parse_errors_witness :
    ParseGitHubRepoFromUrl "ssh://host/o/r"
      = ("", "", some "unsupported URL format: expected git@ or https:// prefix")
    ∧ ParseGitHubRepoFromUrl "git@hosthasnocolon"
      = ("", "", some "invalid SSH URL format: missing colon separator") :=
  ⟨c7_parse_errors.1 "ssh://host/o/r" (by decide) (by decide) (by decide),
   c7_parse_errors.2.1 "git@hosthasnocolon" (by decide) (by decide)⟩

/-- Counterexample for C7 as stated: an input that does not start with
git@, https:// or http:// (it starts with a space) is still parsed
successfully, because the code trims whitespace before the scheme check. -/
theorem c7_counterexample :
    strStartsWith " git@h:o/r" "git@" = false
    ∧ strStartsWith " git@h:o/r" "https://" = false
    ∧ strStartsWith " git@h:o/r" "http://" = false
    ∧ ParseGitHubRepoFromUrl " git@h:o/r" = ("o", "r", none) := by decide

/-- Claim C8 (amended): GetRepoShortName strips the public-host HTTPS
prefix when present and always strips one trailing .git when present;
a URL without the prefix is returned verbatim only when it also lacks
the .git suffix. -/
theorem c8_short_name (o n rest url s : String) :
    (GetRepoShortName ("https://github.com/" ++ o ++ "/" ++ n ++ ".git") = o ++ "/" ++ n)
    ∧ ((".git" : String).data.isSuffixOf rest.data = false →
        GetRepoShortName ("https://github.com/" ++ rest) = rest)
    ∧ (strStartsWith url "https://github.com/" = false →
        (".git" : String).data.isSuffixOf url.data = false →
        GetRepoShortName url = url)
    ∧ (strStartsWith (s ++ ".git") "https://github.com/" = false →
        GetRepoShortName (s ++ ".git") = s) := by
  refine ⟨?_, ?_, ?_, ?_⟩
  · unfold GetRepoShortName
    rw [strTrimLeading_of_data
      (show ("https://github.com/" ++ o ++ "/" ++ n ++ ".git").data
        = ("https://github.com/" : String).data ++ (o ++ "/" ++ n ++ ".git").data by
        simp [strData_append, List.append_assoc])]
    rw [show String.mk ((o ++ "/" ++ n ++ ".git").data) = o ++ "/" ++ n ++ ".git"
      from strMk_data _]
    exact strTrimTrailing_append _ _
  · intro hg
    unfold GetRepoShortName
    rw [strTrimLeading_append]
    exact strTrimTrailing_of_not _ _ hg
  · intro h1 h2
    unfold strStartsWith at h1
    unfold GetRepoShortName
    rw [strTrimLeading_of_not _ _ h1]
    exact strTrimTrailing_of_not _ _ h2
  · intro h1
    unfold strStartsWith at h1
    unfold GetRepoShortName
    rw [strTrimLeading_of_not _ _ h1]
    exact strTrimTrailing_append _ _

/-- Witness for C8 at concrete inputs. -/
theorem c8_short_name_witness :
    GetRepoShortName ("https://github.com/" ++ "dlvhdr" ++ "/" ++ "gh-dash" ++ ".git")
      = "dlvhdr" ++ "/" ++ "gh-dash"
    ∧ GetRepoShortName "git@host:o/r" = "git@host:o/r"
    ∧ GetRepoShortName "https://github.com/dlvhdr/gh-dash.git" = "dlvhdr/gh-dash" :=
  ⟨(c8_short_name "dlvhdr" "gh-dash" "" "" "").1,
   (c8_short_name "" "" "" "git@host:o/r" "").2.2.1 (by decide) (by decide),
   by decide⟩

/-- Counterexample for C8 as stated: a URL that does not start with the
public-host HTTPS prefix is not returned verbatim, because the .git
suffix is stripped unconditionally. -/
theorem c8_counterexample :
    GetRepoShortName "git@github.com:o/r.git" = "git@github.com:o/r"
    ∧ strStartsWith "git@github.com:o/r.git" "https://github.com/" = false := by decide

/-! ## The section component: scope state, composer and synchronizer -/

/-- FilterTarget from section.go: which repository to filter by. -/
inductive FilterTarget
  | origin
  | upstream
  | none
deriving DecidableEq

/-- The resolved identities of the origin and upstream remotes, the
abstraction of GetOriginRepo and GetUpstreamRepo, whose git lookups live
outside the embedded core. Each entry is the (owner, name) pair, or none
when the remote is missing or its URL fails to parse. -/
structure Identities where
  origin : Option (String × String)
  upstream : Option (String × String)
deriving DecidableEq

/-- The scope-relevant fields of BaseModel from section.go. -/
structure BaseModel where
  configFilters : String
  searchValue : String
  filterTarget : FilterTarget
  isAuthorFilterRemoved : Bool
  customRepoFilter : String
  isFilteredByCurrentRemote : Bool
deriving DecidableEq

/-- HasRepoNameInConfiguredFilter from section.go. -/
def HasRepoNameInConfiguredFilter (m : BaseModel) : Bool :=
  (strFields m.configFilters).any (fun w => strStartsWith w "repo:")

/-- applyAuthorFilter from section.go: removes author:@me tokens when
IsAuthorFilterRemoved is set. -/
def applyAuthorFilter (m : BaseModel) (searchValue : String) : String :=
  if m.isAuthorFilterRemoved = false then searchValue
  else joinWords ((strFields searchValue).filter (fun w => decide (w ≠ "author:@me")))

/-- getRepoFilterTokenValue from section.go: the value of the first
repo: token together with a found flag. -/
def getRepoFilterTokenValue (searchValue : String) : String × Bool :=
  match (strFields searchValue).find? (fun w => strStartsWith w "repo:") with
  | some t => (strTrimLeading t "repo:", true)
  | none => ("", false)

/-- hasManualRepoFilter from section.go. -/
def hasManualRepoFilter (m : BaseModel) (I : Identities) (searchValue : String) : Bool :=
  match (strFields searchValue).find? (fun w => strStartsWith w "repo:") with
  | none => false
  | some token =>
    let repoValue := strTrimLeading token "repo:"
    match I.origin with
    | none => true
    | some (originOwner, originName) =>
      if repoValue = originOwner ++ "/" ++ originName
          ∧ m.filterTarget = FilterTarget.origin then false
      else
        match I.upstream with
        | some (upstreamOwner, upstreamName) =>
          if repoValue = upstreamOwner ++ "/" ++ upstreamName
              ∧ m.filterTarget = FilterTarget.upstream then false
          else true
        | none => true

/-- applyRepoFilter from section.go. -/
def applyRepoFilter (m : BaseModel) (searchValue repoFilter : String) : String :=
  let searchValueWithoutRepoFilter :=
    joinWords ((strFields searchValue).filter (fun w => !strStartsWith w "repo:"))
  let result :=
    if repoFilter = "" then searchValueWithoutRepoFilter
    else if searchValueWithoutRepoFilter = "" then "repo:" ++ repoFilter
    else "repo:" ++ repoFilter ++ " " ++ searchValueWithoutRepoFilter
  applyAuthorFilter m result

/-- GetSearchValue from section.go, the query composer. The template
expansion step (enrichSearchWithTemplateVars) is clock-dependent and
returns its input unchanged on failure; the embedding takes searchValue
to be the already expanded text. Remote resolution is supplied by I. -/
def GetSearchValue (m : BaseModel) (I : Identities) : String :=
  if m.customRepoFilter ≠ "" then applyRepoFilter m m.searchValue m.customRepoFilter
  else
    match I.origin with
    | Option.none => applyAuthorFilter m m.searchValue
    | some (originOwner, originName) =>
      if HasRepoNameInConfiguredFilter m then applyAuthorFilter m m.searchValue
      else if hasManualRepoFilter m I m.searchValue then applyAuthorFilter m m.searchValue
      else
        let searchValueWithoutRepoFilter :=
          joinWords ((strFields m.searchValue).filter (fun w => !strStartsWith w "repo:"))
        let result :=
          match m.filterTarget with
          | FilterTarget.origin =>
            "repo:" ++ originOwner ++ "/" ++ originName ++ " "
              ++ searchValueWithoutRepoFilter
          | FilterTarget.upstream =>
            match I.upstream with
            | some (upstreamOwner, upstreamName) =>
              "repo:" ++ upstreamOwner ++ "/" ++ upstreamName ++ " "
                ++ searchValueWithoutRepoFilter
            | Option.none =>
              "repo:" ++ originOwner ++ "/" ++ originName ++ " "
                ++ searchValueWithoutRepoFilter
          | FilterTarget.none => searchValueWithoutRepoFilter
        applyAuthorFilter m result

/-- The rendered origin identity equals the given value. -/
def originMatches (I : Identities) (v : String) : Bool :=
  match I.origin with
  | some (o, n) => decide (v = o ++ "/" ++ n)
  | Option.none => false

/-- The rendered upstream identity equals the given value. -/
def upstreamMatches (I : Identities) (v : String) : Bool :=
  match I.upstream with
  | some (o, n) => decide (v = o ++ "/" ++ n)
  | Option.none => false

/-- SyncRepoFilterStateFromSearchValue from section.go, the scope
synchronizer: it reads the stored search value and rewrites the scope
state. -/
def SyncRepoFilterStateFromSearchValue (m : BaseModel) (I : Identities) : BaseModel :=
  let rv := getRepoFilterTokenValue m.searchValue
  if rv.2 = false ∨ rv.1 = "" then
    { m with customRepoFilter := "", filterTarget := FilterTarget.none,
             isFilteredByCurrentRemote := false }
  else if originMatches I rv.1 then
    { m with customRepoFilter := "", filterTarget := FilterTarget.origin,
             isFilteredByCurrentRemote := true }
  else if upstreamMatches I rv.1 then
    { m with customRepoFilter := "", filterTarget := FilterTarget.upstream,
             isFilteredByCurrentRemote := true }
  else
    { m with customRepoFilter := rv.1, filterTarget := FilterTarget.none,
             isFilteredByCurrentRemote := true }

/-- ToggleFilterTarget from section.go. -/
def ToggleFilterTarget (m : BaseModel) (I : Identities) : BaseModel :=
  if HasRepoNameInConfiguredFilter m then m
  else
    let hasUpstream := I.upstream.isSome
    let ft :=
      match m.filterTarget with
      | FilterTarget.origin =>
        if hasUpstream then FilterTarget.upstream else FilterTarget.none
      | FilterTarget.upstream => FilterTarget.none
      | FilterTarget.none => FilterTarget.origin
    { m with filterTarget := ft,
             isFilteredByCurrentRemote := decide (ft ≠ FilterTarget.none) }

/-- ToggleAuthorFilter from section.go. -/
def ToggleAuthorFilter (m : BaseModel) : BaseModel :=
  { m with isAuthorFilterRemoved := !m.isAuthorFilterRemoved }

/-- The author filtering at token level, for stating theorems. -/
def authorClean (removed : Bool) (l : List String) : List String :=
  if removed then l.filter (fun w => decide (w ≠ "author:@me")) else l

/-! ## Token lemmas -/

theorem strExt {a b : String} (h : a.data = b.data) : a = b := by
  cases a
  cases b
  simp at h
  rw [h]

theorem strAppend_assoc (a b c : String) : (a ++ b) ++ c = a ++ (b ++ c) :=
  strExt (by simp [strData_append, List.append_assoc])

theorem wsFree_append {a b : String} (ha : wsFree a) (hb : wsFree b) :
    wsFree (a ++ b) := by
  intro c hc
  rw [strData_append] at hc
  rcases List.mem_append.mp hc with h | h
  · exact ha c h
  · exact hb c h

theorem render_ne_empty (oo nm : String) : oo ++ "/" ++ nm ≠ "" := by
  rw [str_ne_empty_iff, strData_append, strData_append]
  simp

theorem fieldsAux_cons_nonws {a : Char} (ha : a.isWhitespace = false)
    (acc l : List Char) : fieldsAux acc (a :: l) = fieldsAux (a :: acc) l := by
  simp [fieldsAux, ha]

theorem fieldsAux_cons_ws {a : Char} (ha : a.isWhitespace = true) (acc l : List Char) :
    fieldsAux acc (a :: l)
      = if acc = [] then fieldsAux [] l else acc.reverse :: fieldsAux [] l := by
  rw [show fieldsAux acc (a :: l)
      = if a.isWhitespace then
          (if acc = [] then fieldsAux [] l else acc.reverse :: fieldsAux [] l)
        else fieldsAux (a :: acc) l from rfl]
  rw [ha, if_pos rfl]

theorem fieldsAux_tokens {l : List Char} :
    ∀ {acc : List Char}, (∀ c ∈ acc, c.isWhitespace = false) →
    ∀ w ∈ fieldsAux acc l, w ≠ [] ∧ ∀ c ∈ w, c.isWhitespace = false := by
  induction l with
  | nil =>
    intro acc hacc w hw
    by_cases h : acc = []
    · simp [fieldsAux, h] at hw
    · simp only [fieldsAux, if_neg h, List.mem_singleton] at hw
      subst hw
      refine ⟨by simpa using h, fun c hc => hacc c (List.mem_reverse.mp hc)⟩
  | cons a t ih =>
    intro acc hacc w hw
    simp only [fieldsAux] at hw
    by_cases hws : a.isWhitespace = true
    · rw [if_pos hws] at hw
      by_cases hacc0 : acc = []
      · rw [if_pos hacc0] at hw
        exact ih (by simp) w hw
      · rw [if_neg hacc0] at hw
        rcases List.mem_cons.mp hw with h | h
        · subst h
          exact ⟨by simpa using hacc0, fun c hc => hacc c (List.mem_reverse.mp hc)⟩
        · exact ih (by simp) w h
    · rw [if_neg hws] at hw
      refine ih ?_ w hw
      intro c hc
      rcases List.mem_cons.mp hc with h | h
      · subst h
        simpa using hws
      · exact hacc c h

theorem mem_strFields {s : String} {w : String} (h : w ∈ strFields s) :
    w ≠ "" ∧ wsFree w := by
  unfold strFields at h
  rcases List.mem_map.mp h with ⟨wl, hwl, hmk⟩
  have hp := fieldsAux_tokens (by simp) wl hwl
  subst hmk
  exact ⟨(str_ne_empty_iff _).mpr (by simpa using hp.1), hp.2⟩

theorem fieldsAux_token_cons (s : List Char) :
    ∀ w : List Char, w ≠ [] → (∀ c ∈ w, c.isWhitespace = false) →
    ∀ acc : List Char,
      fieldsAux acc (w ++ ' ' :: s) = (acc.reverse ++ w) :: fieldsAux [] s := by
  intro w
  induction w with
  | nil => exact fun h => absurd rfl h
  | cons a t ih =>
    intro _ hws acc
    have ha : a.isWhitespace = false := hws a (List.mem_cons_self _ _)
    rw [List.cons_append, fieldsAux_cons_nonws ha]
    cases t with
    | nil =>
      rw [List.nil_append, fieldsAux_cons_ws (by decide), if_neg (by simp)]
      simp
    | cons b t2 =>
      rw [ih (by simp) (fun c hc => hws c (List.mem_cons_of_mem _ hc)) (a :: acc)]
      simp

theorem fieldsAux_token_end :
    ∀ w : List Char, w ≠ [] → (∀ c ∈ w, c.isWhitespace = false) →
    ∀ acc : List Char, fieldsAux acc w = [acc.reverse ++ w] := by
  intro w
  induction w with
  | nil => exact fun h => absurd rfl h
  | cons a t ih =>
    intro _ hws acc
    have ha : a.isWhitespace = false := hws a (List.mem_cons_self _ _)
    rw [fieldsAux_cons_nonws ha]
    cases t with
    | nil =>
      rw [show fieldsAux (a :: acc) [] = [(a :: acc).reverse] from by
        simp [fieldsAux]]
      simp
    | cons b t2 =>
      rw [ih (by simp) (fun c hc => hws c (List.mem_cons_of_mem _ hc)) (a :: acc)]
      simp

theorem space_data : (" " : String).data = [' '] := rfl

theorem strFields_token_cons {w : String} (hne : w ≠ "") (hws : wsFree w)
    (s : String) : strFields (w ++ " " ++ s) = w :: strFields s := by
  unfold strFields
  have hd : (w ++ " " ++ s).data = w.data ++ ' ' :: s.data := by
    rw [strData_append, strData_append, space_data, List.append_assoc]
    rfl
  rw [hd, fieldsAux_token_cons s.data w.data ((str_ne_empty_iff w).mp hne) hws []]
  simp

theorem strFields_single {w : String} (hne : w ≠ "") (hws : wsFree w) :
    strFields w = [w] := by
  unfold strFields
  rw [fieldsAux_token_end w.data ((str_ne_empty_iff w).mp hne) hws []]
  simp

theorem strFields_empty : strFields "" = [] := rfl

theorem strFields_joinWords :
    ∀ {l : List String}, (∀ w ∈ l, w ≠ "" ∧ wsFree w) →
    strFields (joinWords l) = l := by
  intro l
  induction l with
  | nil => intro _; rfl
  | cons w ws ih =>
    intro h
    cases ws with
    | nil =>
      exact strFields_single (h w (by simp)).1 (h w (by simp)).2
    | cons w2 ws2 =>
      rw [show joinWords (w :: w2 :: ws2) = w ++ " " ++ joinWords (w2 :: ws2) from rfl]
      rw [strFields_token_cons (h w (by simp)).1 (h w (by simp)).2]
      rw [ih (fun x hx => h x (List.mem_cons_of_mem _ hx))]

theorem joinWords_ne_empty {l : List String} (hl : l ≠ [])
    (h : ∀ w ∈ l, w ≠ "") : joinWords l ≠ "" := by
  cases l with
  | nil => exact absurd rfl hl
  | cons w ws =>
    cases ws with
    | nil => exact h w (by simp)
    | cons w2 ws2 =>
      rw [show joinWords (w :: w2 :: ws2) = w ++ " " ++ joinWords (w2 :: ws2) from rfl]
      rw [str_ne_empty_iff, strData_append, strData_append]
      have hw := (str_ne_empty_iff w).mp (h w (by simp))
      simp [hw]

/-! ## Lemmas about the composer building blocks -/

theorem applyAuthorFilter_notRemoved {m : BaseModel}
    (h : m.isAuthorFilterRemoved = false) (s : String) :
    applyAuthorFilter m s = s := by
  simp [applyAuthorFilter, h]

theorem strFields_applyAuthorFilter (m : BaseModel) (s : String) :
    strFields (applyAuthorFilter m s)
      = authorClean m.isAuthorFilterRemoved (strFields s) := by
  unfold applyAuthorFilter authorClean
  cases hb : m.isAuthorFilterRemoved
  · simp
  · rw [if_neg (by simp), if_pos rfl]
    apply strFields_joinWords
    intro w hw
    exact mem_strFields (List.mem_filter.mp hw).1

theorem authorClean_tokens {b : Bool} {l : List String}
    (h : ∀ w ∈ l, w ≠ "" ∧ wsFree w) :
    ∀ w ∈ authorClean b l, w ≠ "" ∧ wsFree w := by
  intro w hw
  unfold authorClean at hw
  cases b
  · simp at hw
    exact h w hw
  · simp at hw
    exact h w hw.1

theorem authorClean_no_repo {b : Bool} {l : List String}
    (h : ∀ w ∈ l, strStartsWith w "repo:" = false) :
    ∀ w ∈ authorClean b l, strStartsWith w "repo:" = false := by
  intro w hw
  unfold authorClean at hw
  cases b
  · simp at hw
    exact h w hw
  · simp at hw
    exact h w hw.1

theorem repoTok_startsWith (v : String) :
    strStartsWith ("repo:" ++ v) "repo:" = true := by
  unfold strStartsWith
  rw [strData_append]
  exact isPrefixOf_append_self _ _

theorem repoTok_value (v : String) : strTrimLeading ("repo:" ++ v) "repo:" = v :=
  strTrimLeading_append _ _

theorem repoTok_ne_empty (v : String) : ("repo:" ++ v) ≠ "" := by
  rw [str_ne_empty_iff, strData_append]
  simp

theorem repoTok_wsFree {v : String} (h : wsFree v) : wsFree ("repo:" ++ v) := by
  refine wsFree_append ?_ h
  decide

theorem repoTok_ne_author (v : String) : ("repo:" ++ v) ≠ "author:@me" := by
  intro h
  have h1 : strStartsWith ("repo:" ++ v) "repo:" = true := repoTok_startsWith v
  rw [h] at h1
  have h2 : strStartsWith "author:@me" "repo:" = false := by decide
  rw [h1] at h2
  cases h2

theorem authorClean_cons_repoTok (b : Bool) (v : String) (l : List String) :
    authorClean b (("repo:" ++ v) :: l) = ("repo:" ++ v) :: authorClean b l := by
  unfold authorClean
  cases b
  · simp
  · simp [List.filter_cons, repoTok_ne_author v]

theorem getRepo_none {s : String}
    (h : ∀ w ∈ strFields s, strStartsWith w "repo:" = false) :
    getRepoFilterTokenValue s = ("", false) := by
  unfold getRepoFilterTokenValue
  rw [List.find?_eq_none.mpr (fun x hx => by simp [h x hx])]

theorem getRepo_of_fields {s : String} {v : String} {rest : List String}
    (hf : strFields s = ("repo:" ++ v) :: rest) :
    getRepoFilterTokenValue s = (v, true) := by
  unfold getRepoFilterTokenValue
  rw [hf, List.find?_cons_of_pos _ (by simp [repoTok_startsWith])]
  simp [repoTok_value]

theorem renderTok_eq (oo nm : String) :
    "repo:" ++ oo ++ "/" ++ nm = "repo:" ++ (oo ++ "/" ++ nm) := by
  rw [strAppend_assoc, strAppend_assoc, strAppend_assoc]

/-- The filtered token list of a search value, with all repo: tokens
removed. -/
def cleanTokens (s : String) : List String :=
  (strFields s).filter (fun w => !strStartsWith w "repo:")

theorem cleanTokens_props (s : String) :
    ∀ w ∈ cleanTokens s, w ≠ "" ∧ wsFree w := by
  intro w hw
  exact mem_strFields (List.mem_filter.mp hw).1

theorem cleanTokens_no_repo (s : String) :
    ∀ w ∈ cleanTokens s, strStartsWith w "repo:" = false := by
  intro w hw
  have := (List.mem_filter.mp hw).2
  simpa using this

theorem strFields_cleanTokens_join (s : String) :
    strFields (joinWords (cleanTokens s)) = cleanTokens s :=
  strFields_joinWords (cleanTokens_props s)

theorem cleanTokens_of_no_repo {s : String}
    (h : ∀ w ∈ strFields s, strStartsWith w "repo:" = false) :
    cleanTokens s = strFields s := by
  unfold cleanTokens
  apply List.filter_eq_self.mpr
  intro w hw
  simp [h w hw]

/-! ## Path lemmas for the composer -/

/-- The composer result before author filtering; every branch of
GetSearchValue ends by author-filtering a flag-independent string. -/
def preAuthor (m : BaseModel) (I : Identities) : String :=
  if m.customRepoFilter ≠ "" then
    let sv := joinWords (cleanTokens m.searchValue)
    if m.customRepoFilter = "" then sv
    else if sv = "" then "repo:" ++ m.customRepoFilter
    else "repo:" ++ m.customRepoFilter ++ " " ++ sv
  else
    match I.origin with
    | Option.none => m.searchValue
    | some (originOwner, originName) =>
      if HasRepoNameInConfiguredFilter m then m.searchValue
      else if hasManualRepoFilter m I m.searchValue then m.searchValue
      else
        match m.filterTarget with
        | FilterTarget.origin =>
          "repo:" ++ originOwner ++ "/" ++ originName ++ " "
            ++ joinWords (cleanTokens m.searchValue)
        | FilterTarget.upstream =>
          match I.upstream with
          | some (upstreamOwner, upstreamName) =>
            "repo:" ++ upstreamOwner ++ "/" ++ upstreamName ++ " "
              ++ joinWords (cleanTokens m.searchValue)
          | Option.none =>
            "repo:" ++ originOwner ++ "/" ++ originName ++ " "
              ++ joinWords (cleanTokens m.searchValue)
        | FilterTarget.none => joinWords (cleanTokens m.searchValue)

theorem GetSearchValue_factor (m : BaseModel) (I : Identities) :
    GetSearchValue m I = applyAuthorFilter m (preAuthor m I) := by
  unfold GetSearchValue preAuthor applyRepoFilter
  repeat' split
  all_goals rfl

theorem preAuthor_flag (m : BaseModel) (I : Identities) (b : Bool) :
    preAuthor { m with isAuthorFilterRemoved := b } I = preAuthor m I := rfl

theorem GetSearchValue_custom {m : BaseModel} {I : Identities}
    (hc : m.customRepoFilter ≠ "") :
    GetSearchValue m I = applyRepoFilter m m.searchValue m.customRepoFilter := by
  unfold GetSearchValue
  rw [if_pos hc]

theorem GetSearchValue_noOrigin {m : BaseModel} {I : Identities}
    (hc : m.customRepoFilter = "") (ho : I.origin = Option.none) :
    GetSearchValue m I = applyAuthorFilter m m.searchValue := by
  unfold GetSearchValue
  rw [if_neg (by simp [hc]), ho]

theorem GetSearchValue_config {m : BaseModel} {I : Identities} {oo nm : String}
    (hc : m.customRepoFilter = "") (ho : I.origin = some (oo, nm))
    (hcfg : HasRepoNameInConfiguredFilter m = true) :
    GetSearchValue m I = applyAuthorFilter m m.searchValue := by
  unfold GetSearchValue
  rw [if_neg (by simp [hc]), ho]
  dsimp only
  rw [if_pos hcfg]

theorem GetSearchValue_manual {m : BaseModel} {I : Identities} {oo nm : String}
    (hc : m.customRepoFilter = "") (ho : I.origin = some (oo, nm))
    (hcfg : HasRepoNameInConfiguredFilter m = false)
    (hman : hasManualRepoFilter m I m.searchValue = true) :
    GetSearchValue m I = applyAuthorFilter m m.searchValue := by
  unfold GetSearchValue
  rw [if_neg (by simp [hc]), ho]
  dsimp only
  rw [if_neg (by simp [hcfg]), if_pos hman]

theorem GetSearchValue_auto_origin {m : BaseModel} {I : Identities} {oo nm : String}
    (hc : m.customRepoFilter = "") (ho : I.origin = some (oo, nm))
    (hcfg : HasRepoNameInConfiguredFilter m = false)
    (hman : hasManualRepoFilter m I m.searchValue = false)
    (ht : m.filterTarget = FilterTarget.origin) :
    GetSearchValue m I = applyAuthorFilter m
      ("repo:" ++ oo ++ "/" ++ nm ++ " " ++ joinWords (cleanTokens m.searchValue)) := by
  unfold GetSearchValue
  rw [if_neg (by simp [hc]), ho]
  dsimp only
  rw [if_neg (by simp [hcfg]), if_neg (by simp [hman]), ht]
  rfl

theorem GetSearchValue_auto_upstream {m : BaseModel} {I : Identities}
    {oo nm uo un : String}
    (hc : m.customRepoFilter = "") (ho : I.origin = some (oo, nm))
    (hcfg : HasRepoNameInConfiguredFilter m = false)
    (hman : hasManualRepoFilter m I m.searchValue = false)
    (ht : m.filterTarget = FilterTarget.upstream)
    (hu : I.upstream = some (uo, un)) :
    GetSearchValue m I = applyAuthorFilter m
      ("repo:" ++ uo ++ "/" ++ un ++ " " ++ joinWords (cleanTokens m.searchValue)) := by
  unfold GetSearchValue
  rw [if_neg (by simp [hc]), ho]
  dsimp only
  rw [if_neg (by simp [hcfg]), if_neg (by simp [hman]), ht, hu]
  rfl

theorem GetSearchValue_auto_upstream_fallback {m : BaseModel} {I : Identities}
    {oo nm : String}
    (hc : m.customRepoFilter = "") (ho : I.origin = some (oo, nm))
    (hcfg : HasRepoNameInConfiguredFilter m = false)
    (hman : hasManualRepoFilter m I m.searchValue = false)
    (ht : m.filterTarget = FilterTarget.upstream)
    (hu : I.upstream = Option.none) :
    GetSearchValue m I = applyAuthorFilter m
      ("repo:" ++ oo ++ "/" ++ nm ++ " " ++ joinWords (cleanTokens m.searchValue)) := by
  unfold GetSearchValue
  rw [if_neg (by simp [hc]), ho]
  dsimp only
  rw [if_neg (by simp [hcfg]), if_neg (by simp [hman]), ht, hu]
  rfl

theorem GetSearchValue_auto_none {m : BaseModel} {I : Identities} {oo nm : String}
    (hc : m.customRepoFilter = "") (ho : I.origin = some (oo, nm))
    (hcfg : HasRepoNameInConfiguredFilter m = false)
    (hman : hasManualRepoFilter m I m.searchValue = false)
    (ht : m.filterTarget = FilterTarget.none) :
    GetSearchValue m I
      = applyAuthorFilter m (joinWords (cleanTokens m.searchValue)) := by
  unfold GetSearchValue
  rw [if_neg (by simp [hc]), ho]
  dsimp only
  rw [if_neg (by simp [hcfg]), if_neg (by simp [hman]), ht]
  rfl

/-! ## Example states used by witnesses and counterexamples -/

def exIdent : Identities := { origin := some ("acme", "widgets"), upstream := Option.none }

def exIdent2 : Identities :=
  { origin := some ("acme", "widgets"), upstream := some ("up", "stream") }

/-! ## Claim C2 -/

/-- Claim C2 (amended): whenever the configured base filter contains a
repo: token and no custom repo filter is set, GetSearchValue returns the
expanded raw text unmodified, subject only to author:@me removal when
IsAuthorFilterRemoved is true; in particular the repo: token in the text
is never stripped or replaced. A non-empty CustomRepoFilter, checked
first by the code, takes precedence over the configured filter. -/
theorem c2_configured_filter (m : BaseModel) (I : Identities)
    (hc : m.customRepoFilter = "")
    (hcfg : HasRepoNameInConfiguredFilter m = true) :
    GetSearchValue m I = applyAuthorFilter m m.searchValue
    ∧ (m.isAuthorFilterRemoved = false → GetSearchValue m I = m.searchValue) := by
  have h : GetSearchValue m I = applyAuthorFilter m m.searchValue := by
    rcases ho : I.origin with _ | ⟨oo, nm⟩
    · exact GetSearchValue_noOrigin hc ho
    · exact GetSearchValue_config hc ho hcfg
  exact ⟨h, fun hf => by rw [h, applyAuthorFilter_notRemoved hf]⟩

def c2m : BaseModel :=
  { configFilters := "repo:x/y is:open", searchValue := "repo:x/y is:open author:@me",
    filterTarget := FilterTarget.none, isAuthorFilterRemoved := false,
    customRepoFilter := "", isFilteredByCurrentRemote := false }

/-- Witness for C2: with a configured repo: filter the composed query is
the raw text itself. -/
theorem c2_configured_filter_witness :
    GetSearchValue c2m exIdent = "repo:x/y is:open author:@me" :=
  (c2_configured_filter c2m exIdent (by decide) (by decide)).2 (by decide)

def c2cm : BaseModel :=
  { configFilters := "repo:x/y is:open", searchValue := "repo:x/y is:open",
    filterTarget := FilterTarget.none, isAuthorFilterRemoved := false,
    customRepoFilter := "other/repo", isFilteredByCurrentRemote := true }

/-- Counterexample for C2 as stated: the configured repo: filter does
not bypass a non-empty CustomRepoFilter, which is checked first and
replaces the repo: token of the text. -/
theorem c2_counterexample :
    HasRepoNameInConfiguredFilter c2cm = true
    ∧ c2cm.customRepoFilter ≠ ""
    ∧ GetSearchValue c2cm exIdent = "repo:other/repo is:open"
    ∧ GetSearchValue c2cm exIdent ≠ c2cm.searchValue := by decide

/-! ## Claim C9 -/

theorem filter_repo_author (l : List String) :
    (l.filter (fun w => decide (w ≠ "author:@me"))).filter
        (fun w => strStartsWith w "repo:")
      = l.filter (fun w => strStartsWith w "repo:") := by
  induction l with
  | nil => rfl
  | cons a t ih =>
    by_cases hne : a = "author:@me"
    · subst hne
      rw [show List.filter (fun w => decide (w ≠ "author:@me")) ("author:@me" :: t)
          = List.filter (fun w => decide (w ≠ "author:@me")) t from by
        rw [List.filter_cons, if_neg (by simp)]]
      rw [ih, List.filter_cons]
      have h0 : strStartsWith "author:@me" "repo:" = false := by decide
      rw [if_neg (by simp [h0])]
    · rw [show List.filter (fun w => decide (w ≠ "author:@me")) (a :: t)
          = a :: List.filter (fun w => decide (w ≠ "author:@me")) t from by
        rw [List.filter_cons, if_pos (by simp [hne])]]
      rw [List.filter_cons, List.filter_cons, ih]

/-- Claim C9: for every scope state, identity set and raw text, the
composed queries with the author flag off and on differ only in the
presence of tokens exactly equal to author:@me; the repo: tokens are
identical in both; and ToggleAuthorFilter flips only the flag. -/
theorem c9_author_orthogonal (m : BaseModel) (I : Identities) :
    strFields (GetSearchValue { m with isAuthorFilterRemoved := true } I)
      = (strFields (GetSearchValue { m with isAuthorFilterRemoved := false } I)).filter
          (fun w => decide (w ≠ "author:@me"))
    ∧ (strFields (GetSearchValue { m with isAuthorFilterRemoved := true } I)).filter
          (fun w => strStartsWith w "repo:")
      = (strFields (GetSearchValue { m with isAuthorFilterRemoved := false } I)).filter
          (fun w => strStartsWith w "repo:")
    ∧ ToggleAuthorFilter m
        = { m with isAuthorFilterRemoved := !m.isAuthorFilterRemoved } := by
  have h1 := GetSearchValue_factor { m with isAuthorFilterRemoved := true } I
  have h2 := GetSearchValue_factor { m with isAuthorFilterRemoved := false } I
  rw [preAuthor_flag] at h1 h2
  have hf1 : strFields (GetSearchValue { m with isAuthorFilterRemoved := true } I)
      = (strFields (preAuthor m I)).filter (fun w => decide (w ≠ "author:@me")) := by
    rw [h1, strFields_applyAuthorFilter]
    rfl
  have hf2 : strFields (GetSearchValue { m with isAuthorFilterRemoved := false } I)
      = strFields (preAuthor m I) := by
    rw [h2, strFields_applyAuthorFilter]
    rfl
  refine ⟨by rw [hf1, hf2], ?_, rfl⟩
  rw [hf1, hf2, filter_repo_author]

/-! ## Claim C4 -/

/-- Claim C4: the transition table of SyncRepoFilterStateFromSearchValue:
no repo: token clears CustomRepoFilter and sets FilterTarget to None; a
token matching the rendered origin identity selects Origin; else a token
matching the rendered upstream identity selects Upstream; any other
token is recorded as CustomRepoFilter with FilterTarget None; the
remaining fields are never touched. -/
theorem c4_sync_transitions (m : BaseModel) (I : Identities) (v : String) :
    ((getRepoFilterTokenValue m.searchValue).2 = false →
      SyncRepoFilterStateFromSearchValue m I
        = { m with
              customRepoFilter := "",
              filterTarget := FilterTarget.none,
              isFilteredByCurrentRemote := false })
    ∧ (getRepoFilterTokenValue m.searchValue = (v, true) →
       (∀ oo nm, I.origin = some (oo, nm) → v = oo ++ "/" ++ nm →
        SyncRepoFilterStateFromSearchValue m I
          = { m with
                customRepoFilter := "",
                filterTarget := FilterTarget.origin,
                isFilteredByCurrentRemote := true })
       ∧ (originMatches I v = false →
          (∀ uo un, I.upstream = some (uo, un) → v = uo ++ "/" ++ un →
           SyncRepoFilterStateFromSearchValue m I
             = { m with
                   customRepoFilter := "",
                   filterTarget := FilterTarget.upstream,
                   isFilteredByCurrentRemote := true })
          ∧ (upstreamMatches I v = false →
             (SyncRepoFilterStateFromSearchValue m I).customRepoFilter = v
             ∧ (SyncRepoFilterStateFromSearchValue m I).filterTarget
                 = FilterTarget.none)))
    ∧ ((SyncRepoFilterStateFromSearchValue m I).configFilters = m.configFilters
       ∧ (SyncRepoFilterStateFromSearchValue m I).searchValue = m.searchValue
       ∧ (SyncRepoFilterStateFromSearchValue m I).isAuthorFilterRemoved
           = m.isAuthorFilterRemoved) := by
  refine ⟨?_, ?_, ?_⟩
  · intro h
    unfold SyncRepoFilterStateFromSearchValue
    rw [if_pos (Or.inl h)]
  · intro hrv
    refine ⟨?_, ?_⟩
    · intro oo nm ho hv
      unfold SyncRepoFilterStateFromSearchValue
      rw [hrv]
      rw [if_neg (by simp [hv]; exact render_ne_empty oo nm)]
      rw [if_pos (by simp [originMatches, ho, hv])]
    · intro horig
      constructor
      · intro uo un hu hv
        unfold SyncRepoFilterStateFromSearchValue
        rw [hrv]
        rw [if_neg (by simp [hv]; exact render_ne_empty uo un)]
        rw [if_neg (by simp [horig])]
        rw [if_pos (by simp [upstreamMatches, hu, hv])]
      · intro hup
        by_cases hv0 : v = ""
        · subst hv0
          unfold SyncRepoFilterStateFromSearchValue
          rw [hrv]
          rw [if_pos (Or.inr rfl)]
          exact ⟨rfl, rfl⟩
        · unfold SyncRepoFilterStateFromSearchValue
          rw [hrv]
          rw [if_neg (by simp [hv0])]
          rw [if_neg (by simp [horig])]
          rw [if_neg (by simp [hup])]
          exact ⟨rfl, rfl⟩
  · unfold SyncRepoFilterStateFromSearchValue
    dsimp only
    repeat' split
    all_goals exact ⟨rfl, rfl, rfl⟩

def c4m : BaseModel :=
  { configFilters := "is:open", searchValue := "repo:acme/widgets is:open",
    filterTarget := FilterTarget.none, isAuthorFilterRemoved := false,
    customRepoFilter := "zz/ww", isFilteredByCurrentRemote := false }

/-- Witness for C4: a text naming the origin identity selects Origin and
clears the custom filter. -/
theorem c4_sync_transitions_witness :
    SyncRepoFilterStateFromSearchValue c4m exIdent
      = { c4m with
            customRepoFilter := "",
            filterTarget := FilterTarget.origin,
            isFilteredByCurrentRemote := true } :=
  ((c4_sync_transitions c4m exIdent "acme/widgets").2.1 (by decide)).1
    "acme" "widgets" rfl rfl

/-! ## Claim C5 -/

/-- Claim C5: ToggleFilterTarget is a no-op when the configured filter
contains a repo: token; otherwise it cycles Origin to Upstream (when an
upstream remote resolves) or to None (when not), Upstream to None, and
None to Origin, leaving CustomRepoFilter and IsAuthorFilterRemoved
unchanged. -/
theorem c5_toggle (m : BaseModel) (I : Identities) :
    (HasRepoNameInConfiguredFilter m = true → ToggleFilterTarget m I = m)
    ∧ (HasRepoNameInConfiguredFilter m = false →
       ((ToggleFilterTarget m I).customRepoFilter = m.customRepoFilter
        ∧ (ToggleFilterTarget m I).isAuthorFilterRemoved = m.isAuthorFilterRemoved
        ∧ (ToggleFilterTarget m I).searchValue = m.searchValue
        ∧ (ToggleFilterTarget m I).configFilters = m.configFilters)
       ∧ (m.filterTarget = FilterTarget.origin →
          (ToggleFilterTarget m I).filterTarget
            = if I.upstream.isSome then FilterTarget.upstream else FilterTarget.none)
       ∧ (m.filterTarget = FilterTarget.upstream →
          (ToggleFilterTarget m I).filterTarget = FilterTarget.none)
       ∧ (m.filterTarget = FilterTarget.none →
          (ToggleFilterTarget m I).filterTarget = FilterTarget.origin)) := by
  constructor
  · intro h
    unfold ToggleFilterTarget
    rw [if_pos h]
  · intro h
    unfold ToggleFilterTarget
    rw [if_neg (by simp [h])]
    refine ⟨⟨rfl, rfl, rfl, rfl⟩, ?_, ?_, ?_⟩
    · intro ht
      rw [ht]
    · intro ht
      rw [ht]
    · intro ht
      rw [ht]

def c5m : BaseModel :=
  { configFilters := "is:open", searchValue := "is:open",
    filterTarget := FilterTarget.origin, isAuthorFilterRemoved := false,
    customRepoFilter := "", isFilteredByCurrentRemote := true }

/-- Witness for C5: with no upstream remote, toggling from Origin skips
Upstream and lands on None. -/
theorem c5_toggle_witness :
    (ToggleFilterTarget c5m exIdent).filterTarget = FilterTarget.none
    ∧ (ToggleFilterTarget c5m exIdent2).filterTarget = FilterTarget.upstream :=
  ⟨by
    have h := ((c5_toggle c5m exIdent).2 (by decide)).2.1 rfl
    rw [h]
    decide,
   by
    have h := ((c5_toggle c5m exIdent2).2 (by decide)).2.1 rfl
    rw [h]
    decide⟩

/-! ## Claim C10 -/

/-- Claim C10: a search value whose first repo: token is the bare token
repo: is treated exactly like a missing repo: token: the synchronizer
clears CustomRepoFilter, sets FilterTarget to None and
IsFilteredByCurrentRemote to false, for every identity set, without
consulting the identities. -/
theorem c10_bare_repo_token (m : BaseModel)
    (h : (strFields m.searchValue).find? (fun w => strStartsWith w "repo:")
          = some "repo:") (I : Identities) :
    SyncRepoFilterStateFromSearchValue m I
      = { m with
            customRepoFilter := "",
            filterTarget := FilterTarget.none,
            isFilteredByCurrentRemote := false } := by
  have hrv : getRepoFilterTokenValue m.searchValue = ("", true) := by
    unfold getRepoFilterTokenValue
    rw [h]
    dsimp only
    have h0 : strTrimLeading "repo:" "repo:" = "" := by decide
    rw [h0]
  unfold SyncRepoFilterStateFromSearchValue
  rw [hrv]
  rw [if_pos (Or.inr rfl)]

def c10m : BaseModel :=
  { configFilters := "is:open", searchValue := "repo: is:open",
    filterTarget := FilterTarget.origin, isAuthorFilterRemoved := false,
    customRepoFilter := "zz/ww", isFilteredByCurrentRemote := true }

/-- Witness for C10 on a concrete bare repo: token. -/
theorem c10_bare_repo_token_witness :
    SyncRepoFilterStateFromSearchValue c10m exIdent2
      = { c10m with
            customRepoFilter := "",
            filterTarget := FilterTarget.none,
            isFilteredByCurrentRemote := false } :=
  c10_bare_repo_token c10m (by decide) exIdent2

/-! ## Claim C3 -/

theorem authorClean_nil (b : Bool) : authorClean b [] = [] := by
  cases b <;> rfl

theorem applyRepoFilter_eq {m : BaseModel} {c : String} (hc : c ≠ "") (s : String) :
    applyRepoFilter m s c
      = applyAuthorFilter m
          (if joinWords (cleanTokens s) = "" then "repo:" ++ c
           else "repo:" ++ c ++ " " ++ joinWords (cleanTokens s)) := by
  unfold applyRepoFilter
  dsimp only
  rw [if_neg hc]
  rfl

theorem fields_of_repoPrepend (m : BaseModel) {v : String} (hv : wsFree v)
    (s : String) :
    strFields (applyAuthorFilter m ("repo:" ++ v ++ " " ++ joinWords (cleanTokens s)))
      = ("repo:" ++ v) :: authorClean m.isAuthorFilterRemoved (cleanTokens s) := by
  rw [strFields_applyAuthorFilter,
    strFields_token_cons (repoTok_ne_empty v) (repoTok_wsFree hv),
    strFields_cleanTokens_join, authorClean_cons_repoTok]

theorem applyAuthorFilter_joinClean (m : BaseModel) (l : List String)
    (hl : ∀ w ∈ l, w ≠ "" ∧ wsFree w) :
    applyAuthorFilter m (joinWords l)
      = joinWords (authorClean m.isAuthorFilterRemoved l) := by
  unfold applyAuthorFilter authorClean
  cases hb : m.isAuthorFilterRemoved
  · rw [if_pos rfl, if_neg (by simp)]
  · rw [if_neg (by simp), if_pos rfl, strFields_joinWords hl]

/-- Claim C3 (amended): the token-order invariant holds on the paths
where the composer reassembles the query. With a whitespace-free custom
filter the composed token sequence is repo:custom followed by the
author-filtered non-repo tokens of the raw text; with no custom filter,
a resolvable whitespace-free origin, no configured repo: token and no
manual repo: override, FilterTarget Origin or Upstream prepends the
rendered identity as first token before the author-filtered non-repo
tokens, and FilterTarget None yields exactly those tokens joined by
single spaces with no leading or trailing whitespace; on the passthrough
paths the text is returned subject only to author filtering. -/
theorem c3_token_order (m : BaseModel) (I : Identities) :
    (m.customRepoFilter ≠ "" → wsFree m.customRepoFilter →
      strFields (GetSearchValue m I)
        = ("repo:" ++ m.customRepoFilter)
            :: authorClean m.isAuthorFilterRemoved (cleanTokens m.searchValue))
    ∧ (∀ oo nm, m.customRepoFilter = "" → I.origin = some (oo, nm) →
       wsFree oo → wsFree nm →
       HasRepoNameInConfiguredFilter m = false →
       hasManualRepoFilter m I m.searchValue = false →
       ((m.filterTarget = FilterTarget.origin →
         strFields (GetSearchValue m I)
           = ("repo:" ++ oo ++ "/" ++ nm)
               :: authorClean m.isAuthorFilterRemoved (cleanTokens m.searchValue))
        ∧ (m.filterTarget = FilterTarget.none →
           GetSearchValue m I
             = joinWords (authorClean m.isAuthorFilterRemoved (cleanTokens m.searchValue))
           ∧ strFields (GetSearchValue m I)
               = authorClean m.isAuthorFilterRemoved (cleanTokens m.searchValue))
        ∧ (m.filterTarget = FilterTarget.upstream →
           (∀ uo un, I.upstream = some (uo, un) → wsFree uo → wsFree un →
             strFields (GetSearchValue m I)
               = ("repo:" ++ uo ++ "/" ++ un)
                   :: authorClean m.isAuthorFilterRemoved (cleanTokens m.searchValue))
           ∧ (I.upstream = Option.none →
             strFields (GetSearchValue m I)
               = ("repo:" ++ oo ++ "/" ++ nm)
                   :: authorClean m.isAuthorFilterRemoved (cleanTokens m.searchValue)))))
    ∧ (m.customRepoFilter = "" → I.origin = Option.none →
        GetSearchValue m I = applyAuthorFilter m m.searchValue) := by
  refine ⟨?_, ?_, ?_⟩
  · intro hc hv
    rw [GetSearchValue_custom hc, applyRepoFilter_eq hc]
    by_cases hsv : joinWords (cleanTokens m.searchValue) = ""
    · rw [if_pos hsv]
      have hclean : cleanTokens m.searchValue = [] := by
        by_contra hne2
        exact (joinWords_ne_empty hne2
          (fun w hw => (cleanTokens_props _ w hw).1)) hsv
      rw [strFields_applyAuthorFilter,
        strFields_single (repoTok_ne_empty _) (repoTok_wsFree hv), hclean,
        authorClean_cons_repoTok, authorClean_nil]
    · rw [if_neg hsv, fields_of_repoPrepend m hv]
  · intro oo nm hc ho hwo hwn hcfg hman
    refine ⟨?_, ?_, ?_⟩
    · intro ht
      rw [GetSearchValue_auto_origin hc ho hcfg hman ht, renderTok_eq]
      exact fields_of_repoPrepend m
        (wsFree_append (wsFree_append hwo (by decide)) hwn) _
    · intro ht
      have hgv := GetSearchValue_auto_none hc ho hcfg hman ht
      constructor
      · rw [hgv, applyAuthorFilter_joinClean m _ (cleanTokens_props _)]
      · rw [hgv, strFields_applyAuthorFilter, strFields_cleanTokens_join]
    · intro ht
      constructor
      · intro uo un hu hwuo hwun
        rw [GetSearchValue_auto_upstream hc ho hcfg hman ht hu, renderTok_eq]
        exact fields_of_repoPrepend m
          (wsFree_append (wsFree_append hwuo (by decide)) hwun) _
      · intro hu
        rw [GetSearchValue_auto_upstream_fallback hc ho hcfg hman ht hu, renderTok_eq]
        exact fields_of_repoPrepend m
          (wsFree_append (wsFree_append hwo (by decide)) hwn) _
  · intro hc ho
    exact GetSearchValue_noOrigin hc ho

def c3wm : BaseModel :=
  { configFilters := "", searchValue := "is:open author:@me",
    filterTarget := FilterTarget.origin, isAuthorFilterRemoved := false,
    customRepoFilter := "", isFilteredByCurrentRemote := true }

/-- Witness for C3 on the scenario of the claim: origin acme/widgets,
FilterTarget Origin, raw text is:open author:@me. -/
theorem c3_token_order_witness :
    strFields (GetSearchValue c3wm exIdent)
      = ["repo:acme/widgets", "is:open", "author:@me"]
    ∧ GetSearchValue c3wm exIdent = "repo:acme/widgets is:open author:@me" := by
  constructor
  · have h := ((c3_token_order c3wm exIdent).2.1 "acme" "widgets" rfl rfl
      (by decide) (by decide) (by decide) (by decide)).1 rfl
    rw [h]
    decide
  · decide

def c3cm : BaseModel :=
  { configFilters := "", searchValue := "is:open repo:c/d",
    filterTarget := FilterTarget.origin, isAuthorFilterRemoved := false,
    customRepoFilter := "", isFilteredByCurrentRemote := true }

/-- Counterexample for C3 as stated: a manual repo: override is passed
through verbatim, so the repo: token is present but not first. -/
theorem c3_counterexample :
    GetSearchValue c3cm exIdent = "is:open repo:c/d"
    ∧ (strFields (GetSearchValue c3cm exIdent)).head? = some "is:open"
    ∧ strStartsWith "is:open" "repo:" = false
    ∧ "repo:c/d" ∈ strFields (GetSearchValue c3cm exIdent) := by decide

/-! ## Claim C1 -/

theorem applyAuthorFilter_congr {m1 m2 : BaseModel}
    (h : m1.isAuthorFilterRemoved = m2.isAuthorFilterRemoved) (s : String) :
    applyAuthorFilter m1 s = applyAuthorFilter m2 s := by
  unfold applyAuthorFilter
  rw [h]

theorem applyRepoFilter_congr {m1 m2 : BaseModel}
    (h : m1.isAuthorFilterRemoved = m2.isAuthorFilterRemoved) (s c : String) :
    applyRepoFilter m1 s c = applyRepoFilter m2 s c := by
  unfold applyRepoFilter
  rw [applyAuthorFilter_congr h]

theorem hasManual_none {m : BaseModel} {I : Identities} {s : String}
    (h : ∀ w ∈ strFields s, strStartsWith w "repo:" = false) :
    hasManualRepoFilter m I s = false := by
  unfold hasManualRepoFilter
  rw [List.find?_eq_none.mpr (fun x hx => by simp [h x hx])]

theorem strFields_GetSearchValue_custom {m : BaseModel} (I : Identities)
    (hc : m.customRepoFilter ≠ "") (hv : wsFree m.customRepoFilter) :
    strFields (GetSearchValue m I)
      = ("repo:" ++ m.customRepoFilter)
          :: authorClean m.isAuthorFilterRemoved (cleanTokens m.searchValue) := by
  rw [GetSearchValue_custom hc, applyRepoFilter_eq hc]
  by_cases hsv : joinWords (cleanTokens m.searchValue) = ""
  · rw [if_pos hsv]
    have hclean : cleanTokens m.searchValue = [] := by
      by_contra hne2
      exact (joinWords_ne_empty hne2
        (fun w hw => (cleanTokens_props _ w hw).1)) hsv
    rw [strFields_applyAuthorFilter,
      strFields_single (repoTok_ne_empty _) (repoTok_wsFree hv), hclean,
      authorClean_cons_repoTok, authorClean_nil]
  · rw [if_neg hsv, fields_of_repoPrepend m hv]

theorem strFields_applyAuthor_no_repo {m : BaseModel} {s : String}
    (h : ∀ w ∈ strFields s, strStartsWith w "repo:" = false) :
    ∀ w ∈ strFields (applyAuthorFilter m s), strStartsWith w "repo:" = false := by
  rw [strFields_applyAuthorFilter]
  exact authorClean_no_repo h

/-- Claim C1 (amended): round-trip stability of compose and sync. For
every identity set whose resolved owner and name strings are
whitespace-free, every scope state whose CustomRepoFilter is empty or is
a whitespace-free token differing from the rendered origin and upstream
identities (every state the synchronizer itself produces is of this
shape), and every raw text containing no repo: token, re-composing from
the state inferred by the synchronizer from the composed query yields
the same string. -/
theorem c1_round_trip (m : BaseModel) (I : Identities) (t : String)
    (hIdO : match I.origin with
      | some (oo, nm) => wsFree oo ∧ wsFree nm
      | Option.none => True)
    (hIdU : match I.upstream with
      | some (uo, un) => wsFree uo ∧ wsFree un
      | Option.none => True)
    (hC : m.customRepoFilter = ""
      ∨ (wsFree m.customRepoFilter
         ∧ originMatches I m.customRepoFilter = false
         ∧ upstreamMatches I m.customRepoFilter = false))
    (hT : ∀ w ∈ strFields t, strStartsWith w "repo:" = false) :
    GetSearchValue
      { SyncRepoFilterStateFromSearchValue
          { m with searchValue := GetSearchValue { m with searchValue := t } I } I
        with searchValue := t } I
      = GetSearchValue { m with searchValue := t } I := by
  by_cases hc : m.customRepoFilter = ""
  · -- no custom filter
    rcases ho : I.origin with _ | ⟨oo, nm⟩
    · -- origin does not resolve: passthrough
      have hq0 : GetSearchValue { m with searchValue := t } I
          = applyAuthorFilter { m with searchValue := t } t :=
        GetSearchValue_noOrigin hc ho
      have hnr : ∀ w ∈ strFields (GetSearchValue { m with searchValue := t } I),
          strStartsWith w "repo:" = false := by
        rw [hq0]
        exact strFields_applyAuthor_no_repo hT
      have hrv : getRepoFilterTokenValue (GetSearchValue { m with searchValue := t } I)
          = ("", false) := getRepo_none hnr
      have hS : SyncRepoFilterStateFromSearchValue
          { m with searchValue := GetSearchValue { m with searchValue := t } I } I
          = { m with
                searchValue := GetSearchValue { m with searchValue := t } I,
                customRepoFilter := "",
                filterTarget := FilterTarget.none,
                isFilteredByCurrentRemote := false } := by
        unfold SyncRepoFilterStateFromSearchValue
        dsimp only
        rw [hrv]
        rw [if_pos (Or.inl rfl)]
      rw [hS]
      have hq1 : GetSearchValue
          { m with
            searchValue := t,
            customRepoFilter := "",
            filterTarget := FilterTarget.none,
            isFilteredByCurrentRemote := false } I
          = applyAuthorFilter
              { m with
                searchValue := t,
                customRepoFilter := "",
                filterTarget := FilterTarget.none,
                isFilteredByCurrentRemote := false } t :=
        GetSearchValue_noOrigin rfl ho
      exact hq1.trans ((applyAuthorFilter_congr rfl t).trans hq0.symm)
    · -- origin resolves
      have hid := hIdO
      rw [ho] at hid
      obtain ⟨hwo, hwn⟩ := hid
      by_cases hcfg : HasRepoNameInConfiguredFilter m = true
      · -- configured repo: filter: passthrough
        have hq0 : GetSearchValue { m with searchValue := t } I
            = applyAuthorFilter { m with searchValue := t } t :=
          GetSearchValue_config hc ho hcfg
        have hnr : ∀ w ∈ strFields (GetSearchValue { m with searchValue := t } I),
            strStartsWith w "repo:" = false := by
          rw [hq0]
          exact strFields_applyAuthor_no_repo hT
        have hrv : getRepoFilterTokenValue
            (GetSearchValue { m with searchValue := t } I) = ("", false) :=
          getRepo_none hnr
        have hS : SyncRepoFilterStateFromSearchValue
            { m with searchValue := GetSearchValue { m with searchValue := t } I } I
            = { m with
                  searchValue := GetSearchValue { m with searchValue := t } I,
                  customRepoFilter := "",
                  filterTarget := FilterTarget.none,
                  isFilteredByCurrentRemote := false } := by
          unfold SyncRepoFilterStateFromSearchValue
          dsimp only
          rw [hrv]
          rw [if_pos (Or.inl rfl)]
        rw [hS]
        have hq1 : GetSearchValue
            { m with
              searchValue := t,
              customRepoFilter := "",
              filterTarget := FilterTarget.none,
              isFilteredByCurrentRemote := false } I
            = applyAuthorFilter
                { m with
                  searchValue := t,
                  customRepoFilter := "",
                  filterTarget := FilterTarget.none,
                  isFilteredByCurrentRemote := false } t :=
          GetSearchValue_config rfl ho hcfg
        exact hq1.trans ((applyAuthorFilter_congr rfl t).trans hq0.symm)
      · -- no configured repo: filter
        have hcfgf : HasRepoNameInConfiguredFilter m = false := by
          simpa using hcfg
        have hman : hasManualRepoFilter { m with searchValue := t } I t = false :=
          hasManual_none hT
        have htgt3 : m.filterTarget = FilterTarget.origin
            ∨ m.filterTarget = FilterTarget.upstream
            ∨ m.filterTarget = FilterTarget.none := by
          cases m.filterTarget
          · exact Or.inl rfl
          · exact Or.inr (Or.inl rfl)
          · exact Or.inr (Or.inr rfl)
        rcases htgt3 with htgt | htgt | htgt
        · -- FilterTarget.origin
          have hq0 : GetSearchValue { m with searchValue := t } I
              = applyAuthorFilter { m with searchValue := t }
                  ("repo:" ++ oo ++ "/" ++ nm ++ " " ++ joinWords (cleanTokens t)) :=
            GetSearchValue_auto_origin hc ho hcfgf hman htgt
          have hfq : strFields (GetSearchValue { m with searchValue := t } I)
              = ("repo:" ++ (oo ++ "/" ++ nm))
                  :: authorClean m.isAuthorFilterRemoved (cleanTokens t) := by
            rw [hq0, renderTok_eq]
            exact fields_of_repoPrepend _
              (wsFree_append (wsFree_append hwo (by decide)) hwn) _
          have hrv : getRepoFilterTokenValue
              (GetSearchValue { m with searchValue := t } I)
              = (oo ++ "/" ++ nm, true) := getRepo_of_fields hfq
          have hS : SyncRepoFilterStateFromSearchValue
              { m with searchValue := GetSearchValue { m with searchValue := t } I } I
              = { m with
                    searchValue := GetSearchValue { m with searchValue := t } I,
                    customRepoFilter := "",
                    filterTarget := FilterTarget.origin,
                    isFilteredByCurrentRemote := true } := by
            unfold SyncRepoFilterStateFromSearchValue
            dsimp only
            rw [hrv]
            rw [if_neg (by simp [render_ne_empty oo nm])]
            rw [if_pos (by simp [originMatches, ho])]
          rw [hS]
          have hq1 : GetSearchValue
              { m with
                searchValue := t,
                customRepoFilter := "",
                filterTarget := FilterTarget.origin,
                isFilteredByCurrentRemote := true } I
              = applyAuthorFilter
                  { m with
                    searchValue := t,
                    customRepoFilter := "",
                    filterTarget := FilterTarget.origin,
                    isFilteredByCurrentRemote := true }
                  ("repo:" ++ oo ++ "/" ++ nm ++ " " ++ joinWords (cleanTokens t)) :=
            GetSearchValue_auto_origin rfl ho hcfgf (hasManual_none hT) rfl
          exact hq1.trans ((applyAuthorFilter_congr rfl _).trans hq0.symm)
        · -- FilterTarget.upstream
          rcases hu : I.upstream with _ | ⟨uo, un⟩
          · -- no upstream: fallback to origin
            have hq0 : GetSearchValue { m with searchValue := t } I
                = applyAuthorFilter { m with searchValue := t }
                    ("repo:" ++ oo ++ "/" ++ nm ++ " " ++ joinWords (cleanTokens t)) :=
              GetSearchValue_auto_upstream_fallback hc ho hcfgf hman htgt hu
            have hfq : strFields (GetSearchValue { m with searchValue := t } I)
                = ("repo:" ++ (oo ++ "/" ++ nm))
                    :: authorClean m.isAuthorFilterRemoved (cleanTokens t) := by
              rw [hq0, renderTok_eq]
              exact fields_of_repoPrepend _
                (wsFree_append (wsFree_append hwo (by decide)) hwn) _
            have hrv : getRepoFilterTokenValue
                (GetSearchValue { m with searchValue := t } I)
                = (oo ++ "/" ++ nm, true) := getRepo_of_fields hfq
            have hS : SyncRepoFilterStateFromSearchValue
                { m with
                  searchValue := GetSearchValue { m with searchValue := t } I } I
                = { m with
                      searchValue := GetSearchValue { m with searchValue := t } I,
                      customRepoFilter := "",
                      filterTarget := FilterTarget.origin,
                      isFilteredByCurrentRemote := true } := by
              unfold SyncRepoFilterStateFromSearchValue
              dsimp only
              rw [hrv]
              rw [if_neg (by simp [render_ne_empty oo nm])]
              rw [if_pos (by simp [originMatches, ho])]
            rw [hS]
            have hq1 : GetSearchValue
                { m with
                  searchValue := t,
                  customRepoFilter := "",
                  filterTarget := FilterTarget.origin,
                  isFilteredByCurrentRemote := true } I
                = applyAuthorFilter
                    { m with
                      searchValue := t,
                      customRepoFilter := "",
                      filterTarget := FilterTarget.origin,
                      isFilteredByCurrentRemote := true }
                    ("repo:" ++ oo ++ "/" ++ nm ++ " "
                      ++ joinWords (cleanTokens t)) :=
              GetSearchValue_auto_origin rfl ho hcfgf (hasManual_none hT) rfl
            exact hq1.trans ((applyAuthorFilter_congr rfl _).trans hq0.symm)
          · -- upstream resolves
            have hidu := hIdU
            rw [hu] at hidu
            obtain ⟨hwuo, hwun⟩ := hidu
            have hq0 : GetSearchValue { m with searchValue := t } I
                = applyAuthorFilter { m with searchValue := t }
                    ("repo:" ++ uo ++ "/" ++ un ++ " " ++ joinWords (cleanTokens t)) :=
              GetSearchValue_auto_upstream hc ho hcfgf hman htgt hu
            have hfq : strFields (GetSearchValue { m with searchValue := t } I)
                = ("repo:" ++ (uo ++ "/" ++ un))
                    :: authorClean m.isAuthorFilterRemoved (cleanTokens t) := by
              rw [hq0, renderTok_eq]
              exact fields_of_repoPrepend _
                (wsFree_append (wsFree_append hwuo (by decide)) hwun) _
            have hrv : getRepoFilterTokenValue
                (GetSearchValue { m with searchValue := t } I)
                = (uo ++ "/" ++ un, true) := getRepo_of_fields hfq
            by_cases heqB : originMatches I (uo ++ "/" ++ un) = true
            · -- the rendered identities coincide
              have heq : uo ++ "/" ++ un = oo ++ "/" ++ nm := by
                unfold originMatches at heqB
                rw [ho] at heqB
                exact of_decide_eq_true heqB
              have hS : SyncRepoFilterStateFromSearchValue
                  { m with
                    searchValue := GetSearchValue { m with searchValue := t } I } I
                  = { m with
                        searchValue := GetSearchValue { m with searchValue := t } I,
                        customRepoFilter := "",
                        filterTarget := FilterTarget.origin,
                        isFilteredByCurrentRemote := true } := by
                unfold SyncRepoFilterStateFromSearchValue
                dsimp only
                rw [hrv]
                rw [if_neg (by simp [render_ne_empty uo un])]
                rw [if_pos (by simp [heqB])]
              rw [hS]
              have hq1 : GetSearchValue
                  { m with
                    searchValue := t,
                    customRepoFilter := "",
                    filterTarget := FilterTarget.origin,
                    isFilteredByCurrentRemote := true } I
                  = applyAuthorFilter
                      { m with
                        searchValue := t,
                        customRepoFilter := "",
                        filterTarget := FilterTarget.origin,
                        isFilteredByCurrentRemote := true }
                      ("repo:" ++ oo ++ "/" ++ nm ++ " "
                        ++ joinWords (cleanTokens t)) :=
                GetSearchValue_auto_origin rfl ho hcfgf (hasManual_none hT) rfl
              have heq2 : "repo:" ++ oo ++ "/" ++ nm ++ " " ++ joinWords (cleanTokens t)
                  = "repo:" ++ uo ++ "/" ++ un ++ " " ++ joinWords (cleanTokens t) := by
                rw [renderTok_eq, renderTok_eq, heq]
              rw [heq2] at hq1
              exact hq1.trans ((applyAuthorFilter_congr rfl _).trans hq0.symm)
            · -- distinct identities: sync picks Upstream
              have heqF : originMatches I (uo ++ "/" ++ un) = false := by
                simpa using heqB
              have hS : SyncRepoFilterStateFromSearchValue
                  { m with
                    searchValue := GetSearchValue { m with searchValue := t } I } I
                  = { m with
                        searchValue := GetSearchValue { m with searchValue := t } I,
                        customRepoFilter := "",
                        filterTarget := FilterTarget.upstream,
                        isFilteredByCurrentRemote := true } := by
                unfold SyncRepoFilterStateFromSearchValue
                dsimp only
                rw [hrv]
                rw [if_neg (by simp [render_ne_empty uo un])]
                rw [if_neg (by simp [heqF])]
                rw [if_pos (by simp [upstreamMatches, hu])]
              rw [hS]
              have hq1 : GetSearchValue
                  { m with
                    searchValue := t,
                    customRepoFilter := "",
                    filterTarget := FilterTarget.upstream,
                    isFilteredByCurrentRemote := true } I
                  = applyAuthorFilter
                      { m with
                        searchValue := t,
                        customRepoFilter := "",
                        filterTarget := FilterTarget.upstream,
                        isFilteredByCurrentRemote := true }
                      ("repo:" ++ uo ++ "/" ++ un ++ " "
                        ++ joinWords (cleanTokens t)) :=
                GetSearchValue_auto_upstream rfl ho hcfgf (hasManual_none hT) rfl hu
              exact hq1.trans ((applyAuthorFilter_congr rfl _).trans hq0.symm)
        · -- FilterTarget.none
          have hq0 : GetSearchValue { m with searchValue := t } I
              = applyAuthorFilter { m with searchValue := t }
                  (joinWords (cleanTokens t)) :=
            GetSearchValue_auto_none hc ho hcfgf hman htgt
          have hnr : ∀ w ∈ strFields (GetSearchValue { m with searchValue := t } I),
              strStartsWith w "repo:" = false := by
            intro w hw
            rw [hq0, strFields_applyAuthorFilter, strFields_cleanTokens_join] at hw
            exact authorClean_no_repo (cleanTokens_no_repo t) w hw
          have hrv : getRepoFilterTokenValue
              (GetSearchValue { m with searchValue := t } I) = ("", false) :=
            getRepo_none hnr
          have hS : SyncRepoFilterStateFromSearchValue
              { m with searchValue := GetSearchValue { m with searchValue := t } I } I
              = { m with
                    searchValue := GetSearchValue { m with searchValue := t } I,
                    customRepoFilter := "",
                    filterTarget := FilterTarget.none,
                    isFilteredByCurrentRemote := false } := by
            unfold SyncRepoFilterStateFromSearchValue
            dsimp only
            rw [hrv]
            rw [if_pos (Or.inl rfl)]
          rw [hS]
          have hq1 : GetSearchValue
              { m with
                searchValue := t,
                customRepoFilter := "",
                filterTarget := FilterTarget.none,
                isFilteredByCurrentRemote := false } I
              = applyAuthorFilter
                  { m with
                    searchValue := t,
                    customRepoFilter := "",
                    filterTarget := FilterTarget.none,
                    isFilteredByCurrentRemote := false }
                  (joinWords (cleanTokens t)) :=
            GetSearchValue_auto_none rfl ho hcfgf (hasManual_none hT) rfl
          exact hq1.trans ((applyAuthorFilter_congr rfl _).trans hq0.symm)
  · -- custom-filter path
    rcases hC with hC0 | ⟨hv, horig, hup⟩
    · exact absurd hC0 hc
    have hq0 : GetSearchValue { m with searchValue := t } I
        = applyRepoFilter { m with searchValue := t } t m.customRepoFilter :=
      GetSearchValue_custom hc
    have hfq : strFields (GetSearchValue { m with searchValue := t } I)
        = ("repo:" ++ m.customRepoFilter)
            :: authorClean m.isAuthorFilterRemoved (cleanTokens t) :=
      strFields_GetSearchValue_custom I hc hv
    have hrv : getRepoFilterTokenValue (GetSearchValue { m with searchValue := t } I)
        = (m.customRepoFilter, true) := getRepo_of_fields hfq
    have hS : SyncRepoFilterStateFromSearchValue
        { m with searchValue := GetSearchValue { m with searchValue := t } I } I
        = { m with
              searchValue := GetSearchValue { m with searchValue := t } I,
              customRepoFilter := m.customRepoFilter,
              filterTarget := FilterTarget.none,
              isFilteredByCurrentRemote := true } := by
      unfold SyncRepoFilterStateFromSearchValue
      dsimp only
      rw [hrv]
      rw [if_neg (by simp [hc])]
      rw [if_neg (by simp [horig])]
      rw [if_neg (by simp [hup])]
    rw [hS]
    have hq1 : GetSearchValue
        { m with
          searchValue := t,
          customRepoFilter := m.customRepoFilter,
          filterTarget := FilterTarget.none,
          isFilteredByCurrentRemote := true } I
        = applyRepoFilter
            { m with
              searchValue := t,
              customRepoFilter := m.customRepoFilter,
              filterTarget := FilterTarget.none,
              isFilteredByCurrentRemote := true } t m.customRepoFilter :=
      GetSearchValue_custom hc
    exact hq1.trans ((applyRepoFilter_congr rfl t m.customRepoFilter).trans hq0.symm)

def c1wm : BaseModel :=
  { configFilters := "", searchValue := "",
    filterTarget := FilterTarget.origin, isAuthorFilterRemoved := false,
    customRepoFilter := "", isFilteredByCurrentRemote := true }

/-- Witness for C1 on a concrete state, identity set and text. -/
theorem c1_round_trip_witness :
    GetSearchValue
      { SyncRepoFilterStateFromSearchValue
          { c1wm with searchValue :=
              GetSearchValue { c1wm with searchValue := "is:open author:@me" } exIdent2 }
          exIdent2
        with searchValue := "is:open author:@me" } exIdent2
      = GetSearchValue { c1wm with searchValue := "is:open author:@me" } exIdent2
    ∧ GetSearchValue { c1wm with searchValue := "is:open author:@me" } exIdent2
      = "repo:acme/widgets is:open author:@me" :=
  ⟨c1_round_trip c1wm exIdent2 "is:open author:@me"
      (show wsFree "acme" ∧ wsFree "widgets" from by decide)
      (show wsFree "up" ∧ wsFree "stream" from by decide)
      (by decide) (by decide),
   by decide⟩

def noIdent : Identities := { origin := Option.none, upstream := Option.none }

def c1cm : BaseModel :=
  { configFilters := "", searchValue := "a repo:x/y",
    filterTarget := FilterTarget.none, isAuthorFilterRemoved := false,
    customRepoFilter := "", isFilteredByCurrentRemote := false }

/-- Counterexample for C1 as stated: with no resolvable origin and a raw
text already containing a repo: token, composition passes the text
through, syncing records the token value as CustomRepoFilter, and
re-composing moves the repo: token to the front, producing a different
string. -/
theorem c1_counterexample :
    GetSearchValue c1cm noIdent = "a repo:x/y"
    ∧ GetSearchValue
        { SyncRepoFilterStateFromSearchValue
            { c1cm with searchValue := GetSearchValue c1cm noIdent } noIdent
          with searchValue := c1cm.searchValue } noIdent
        = "repo:x/y a"
    ∧ GetSearchValue
        { SyncRepoFilterStateFromSearchValue
            { c1cm with searchValue := GetSearchValue c1cm noIdent } noIdent
          with searchValue := c1cm.searchValue } noIdent
        ≠ GetSearchValue c1cm noIdent := by decide
